import Mathlib

/-!
# Fretboard layout

A shallow embedding of `src/Fretboard.js` (class `Fretboard`) and the properties of its
layout functions.

Conventions of the embedding:

* fret values and string indices are integers (`Int`); on an integer `parseInt` is the
  identity, so `parseInt(f.fret)` is `f.fret`;
* the scan of `_getFirstFret` starts from `Infinity` and `-Infinity`, so its numbers live in
  `Num`, the integers with both infinities;
* `config.strings` and `config.frets` are counts (`Nat`);
* a JavaScript array is a `List`; reading outside it gives `undefined` (`none`), and a
  comparison with `undefined` is false;
* the drawing library is a sink: every drawing call appends one `Cmd` to the picture;
* the pitch library (`@lyre/note`) is a parameter `note`, standing for
  `Note.Parse(p).getTransposition(k).toString()`; the length of its text is counted in
  characters;
* every fingering entry has its three fields, and the configuration has a `tuning`;
* `config.get(key)` reads the stored value: the array it returns for `fingering` is the
  one the configuration holds, so a `push` on it changes the configuration;
* `config.get(key)` throws `KeyNotExist` on a key that is neither configured nor given a
  default by `_initiateConfig`; `startingFret` is such a key, and a method that may throw
  returns an `Outcome`: the instance as the method left it, and the exception if any.
-/

namespace Fretboard

/-! ## Data model -/

/-- A number of the scan in `_getFirstFret`: an integer, `Infinity` or `-Infinity`. -/
inductive Num where
  | negInf
  | fin (n : Int)
  | posInf
deriving DecidableEq, Repr

/-- The comparison `a < b` of two numbers. -/
def Num.lt : Num → Num → Bool
  | .negInf, .negInf => false
  | .negInf, _ => true
  | .fin _, .negInf => false
  | .fin a, .fin b => decide (a < b)
  | .fin _, .posInf => true
  | .posInf, _ => false

/-- The comparison `a <= b` of two numbers. -/
def Num.le (a b : Num) : Bool :=
  decide (a = b) || Num.lt a b

/-- The `string` field of a fingering entry: one string index, or an array pair (a barre). -/
inductive StringRef where
  | single (s : Int)
  | range (a b : Int)
deriving DecidableEq, Repr

/-- The `finger` field of a fingering entry: a numeral or a string. -/
inductive Label where
  | num (n : Int)
  | str (s : String)
deriving DecidableEq, Repr

/-- The method `label.toString()`. -/
def Label.toString : Label → String
  | .num n => ToString.toString n
  | .str s => s

/-- One element of `config.fingering`. -/
structure Entry where
  string : StringRef
  fret : Int
  finger : Label
deriving DecidableEq, Repr

/-- The constant `Fretboard.OPEN_STRING`. -/
def OPEN_STRING : Int := 0

/-- The constant `Fretboard.CLOSED_STRING`. -/
def CLOSED_STRING : Int := -1

/-! ## `_getFirstFret` -/

/-- The body of the loop of `_getFirstFret` on the state `(min, max)`. -/
def firstFretStep (st : Num × Num) (f : Entry) : Num × Num :=
  let fret := f.fret
  -- ignore open and closed
  if fret = -1 ∨ fret = 0 then st
  else
    let min := if Num.lt (.fin fret) st.1 then Num.fin fret else st.1
    let max := if Num.lt st.2 (.fin fret) then Num.fin fret else st.2
    (min, max)

/-- The method `_getFirstFret(fingering)`: the beginning fret. -/
def _getFirstFret (fingering : List Entry) : Num :=
  let st := fingering.foldl firstFretStep (Num.posInf, Num.negInf)
  if Num.le st.2 (.fin 5) then .fin 1 else st.1

/-- The fretted values of a fingering list: its fret values other than `0` and `-1`. -/
def frettedValues (fingering : List Entry) : List Int :=
  (fingering.map Entry.fret).filter (fun x => decide (x ≠ 0 ∧ x ≠ -1))


/-! ## The configuration and the picture -/

/-- The resolved configuration `this.config`, with the defaults of `_initiateConfig`.
The key `startingFret` has no default: `none` is a configuration without that key. -/
structure Config where
  frets : Nat := 5
  strings : Nat := 6
  fingering : List Entry := []
  showFretLabels : Bool := false
  showNotes : Bool := false
  tuning : List String := []
  startingFret : Option Int := none
deriving DecidableEq, Repr

/-- A shape drawn inside the group of one fret marker (`pogG`). -/
inductive Shape where
  /-- The bar of a barre: `pogG.rect(width, height).attr({x, y})`. -/
  | bar (width height x : Int) (y : Num)
  /-- The X of a closed string: `pogG.polygon(...).transform({x, y})`. -/
  | cross (x y : Int)
  /-- The circle of an open string: `pogG.circle(diameter)` with white fill and black stroke,
  then `.transform({x, y})`. -/
  | ring (diameter x y : Int)
  /-- The place of a regular marker: `pogG.transform({x, y})`. -/
  | place (x : Int) (y : Num)
  /-- The disc of a regular marker: `pogG.circle(diameter)` with black fill. -/
  | dot (diameter : Int)
  /-- The label of a regular marker: `pogG.text(label)` with white fill at `(x, y)`. -/
  | caption (label : String) (x y : Int)
deriving DecidableEq, Repr

/-- One call of the drawing library. -/
inductive Cmd where
  /-- The canvas: `SVG(container).viewbox(0, 0, width, height).width(500)`. -/
  | viewbox (width height : Int)
  /-- A group of the canvas: `this.svg.group().id(id).transform({x, y})`. -/
  | group (id : String) (x y : Int)
  /-- A rectangle of the grid: `this.fretGroup.rect(width, height).attr({x, y})`. -/
  | gridRect (width height x y : Int)
  /-- A shape in a marker group `this.fretGroup.group().id(id)`. -/
  | marker (id : Label) (shape : Shape)
  /-- A text of the group `fret_labels` at height `y`. -/
  | fretLabel (text : String) (y : Int)
  /-- A text of the group `notes` at abscissa `x`. -/
  | note (text : String) (x : Int)
deriving DecidableEq, Repr

/-- The expression `n + k` for a number `n` and an integer `k`. -/
def Num.add : Num → Int → Num
  | .fin n, k => .fin (n + k)
  | .negInf, _ => .negInf
  | .posInf, _ => .posInf

/-- The method `toString()` of a number. -/
def Num.toString : Num → String
  | .fin n => ToString.toString n
  | .negInf => "-Infinity"
  | .posInf => "Infinity"

end Fretboard

/-- An instance of the class `Fretboard`: its configuration and the picture drawn so far. -/
structure Fretboard where
  config : Fretboard.Config
  svg : List Fretboard.Cmd
deriving DecidableEq, Repr

namespace Fretboard

/-- An exception of the configuration: `config.get(key)` on a key that the configuration
does not hold. -/
inductive ConfigError where
  | keyNotExist (key : String)
deriving DecidableEq, Repr

/-- The outcome of a method that may throw: the instance as the method left it, and the
exception when one was thrown. -/
structure Outcome where
  state : Fretboard
  thrown : Option ConfigError
deriving DecidableEq, Repr

/-! ## `_getFretStructure` and `_getUnplayedStrings` -/

/-- The element read `array[idx]` for an integer `idx`: `none` is `undefined`. -/
def elemAt {α : Type} (array : List α) (idx : Int) : Option α :=
  if idx < 0 then none else array[idx.toNat]?

/-- The statement `if(fret > fullFingering[string-1]) fullFingering[string-1] = fret`.
An index outside the array reads `undefined`, and the comparison is then false. -/
def raiseFret (fullFingering : List Int) (string fret : Int) : List Int :=
  match elemAt fullFingering (string - 1) with
  | none => fullFingering
  | some cur =>
    if fret > cur then fullFingering.set (string - 1).toNat fret else fullFingering

/-- The values of `string` in `for(var string = min; string <= max; string++)`. -/
def stringsFromTo (min max : Int) : List Int :=
  (List.range (max + 1 - min).toNat).map (fun (i : Nat) => min + (i : Int))

/-- The body of the loop of `_getFretStructure`. -/
def fretStructureStep (fullFingering : List Int) (f : Entry) : List Int :=
  let fret := f.fret
  match f.string with
  | .range a b =>
    let min := Min.min a b
    let max := Max.max a b
    (stringsFromTo min max).foldl (fun acc string => raiseFret acc string fret) fullFingering
  | .single string => raiseFret fullFingering string fret

/-- The method `_getFretStructure()`. -/
def _getFretStructure (config : Config) : List Int :=
  config.fingering.foldl fretStructureStep (List.replicate config.strings (-1))

/-- The method `_getUnplayedStrings()`; `for(let string in frets)` visits the indices of the
array in ascending order. -/
def _getUnplayedStrings (config : Config) : List Int :=
  let frets := _getFretStructure config
  (List.range frets.length).foldl
    (fun (unplayed : List Int) (string : Nat) =>
      if frets[string]? = some (-1) then unplayed ++ [(string : Int) + 1] else unplayed)
    []

/-! ## Positions -/

/-- The method `_getStringPos(string)`. -/
def _getStringPos (config : Config) (string : Int) : Int :=
  let inverseString := (config.strings : Int) - string
  inverseString * 25

/-- The method `_getRelativeFretPos(fret)`:
`(fret - this._getFirstFret(fingering) + 1) * 30 - 15`. -/
def _getRelativeFretPos (config : Config) (fret : Int) : Num :=
  match _getFirstFret config.fingering with
  | .fin firstFret => .fin ((fret - firstFret + 1) * 30 - 15)
  | .posInf => .negInf
  | .negInf => .posInf

/-- The method `_getAbsoluteFretPos(fret)`. -/
def _getAbsoluteFretPos (fret : Int) : Int :=
  fret * 30 - 15

/-! ## Drawing -/

/-- The method `_drawGrid()`. -/
def _drawGrid (fb : Fretboard) : Fretboard :=
  let firstFret := _getFirstFret fb.config.fingering
  let svg := fb.svg ++ [Cmd.group "grid" 35 20]
  let fretWidth : Int := ((fb.config.strings : Int) - 1) * 25 + 2
  let svg := (List.range (fb.config.frets + 1)).foldl
    (fun (svg : List Cmd) (i : Nat) =>
      if i = 0 ∧ firstFret = Num.fin 1 then
        svg ++ [Cmd.gridRect fretWidth 6 0 ((i : Int) * 30)]
      else
        svg ++ [Cmd.gridRect fretWidth 2 0 ((i : Int) * 30)])
    svg
  let stringHeight : Int := (fb.config.frets : Int) * 30
  let svg := (List.range fb.config.strings).foldl
    (fun (svg : List Cmd) (i : Nat) => svg ++ [Cmd.gridRect 2 stringHeight ((i : Int) * 25) 0])
    svg
  { fb with svg := svg }

/-- The branches of `addFretMarker(string, fret, label)` for a `string` that is a number. -/
def addSingleFretMarker (fb : Fretboard) (string fret : Int) (label : Label) : Fretboard :=
  let id := label
  let label := label.toString
  if fret = CLOSED_STRING then
    { fb with svg := fb.svg ++ [Cmd.marker id
        (.cross (_getStringPos fb.config string - 6) (_getAbsoluteFretPos 0 + 1))] }
  else if fret = OPEN_STRING then
    { fb with svg := fb.svg ++ [Cmd.marker id
        (.ring 13 (_getStringPos fb.config string - 6) (_getAbsoluteFretPos 0 + 2))] }
  else
    { fb with svg := fb.svg ++
        [Cmd.marker id (.place (_getStringPos fb.config string - 10)
            ((_getRelativeFretPos fb.config fret).add (-10))),
         Cmd.marker id (.dot 22),
         Cmd.marker id (.caption label 11 (-3))] }

/-- The method `addFretMarker(string, fret, label)`; its two recursive calls have a number
for `string` and the label already converted to a string. -/
def addFretMarker (fb : Fretboard) (string : StringRef) (fret : Int) (label : Label) :
    Fretboard :=
  match string with
  | .range a b =>
    let id := label
    let label := label.toString
    let min := Min.min a b
    let max := Max.max a b
    let fb := { fb with svg := fb.svg ++ [Cmd.marker id
      (.bar (_getStringPos fb.config min - _getStringPos fb.config max) 10
        (_getStringPos fb.config max) ((_getRelativeFretPos fb.config fret).add (-4)))] }
    let fb := addSingleFretMarker fb min fret (.str label)
    addSingleFretMarker fb max fret (.str label)
  | .single s => addSingleFretMarker fb s fret label

/-- The method `_drawFretMarkers()`; the unplayed strings are pushed onto the fingering array
of the configuration itself. -/
def _drawFretMarkers (fb : Fretboard) : Fretboard :=
  let unplayed := _getUnplayedStrings fb.config
  let fingering := unplayed.foldl
    (fun fingering string =>
      fingering ++ [{ string := .single string, fret := -1, finger := .num 0 }])
    fb.config.fingering
  let fb := { fb with config := { fb.config with fingering := fingering } }
  fingering.foldl (fun fb d => addFretMarker fb d.string d.fret d.finger) fb

/-- The method `_drawFretLabels()`. In its second branch `this.config.get("startingFret")`
throws when the configuration has no such key; the group is created before that. -/
def _drawFretLabels (fb : Fretboard) : Outcome :=
  let startFret := _getFirstFret fb.config.fingering
  let svg := fb.svg ++ [Cmd.group "fret_labels" 0 20]
  if fb.config.showFretLabels then
    let svg := (List.range fb.config.frets).foldl
      (fun (svg : List Cmd) (i : Nat) =>
        svg ++ [Cmd.fretLabel (startFret.add (i : Int)).toString ((i : Int) * 30 + 8)])
      svg
    { state := { fb with svg := svg }, thrown := none }
  else if startFret ≠ Num.fin 1 then
    match fb.config.startingFret with
    | none =>
      { state := { fb with svg := svg }, thrown := some (.keyNotExist "startingFret") }
    | some startingFret =>
      if startingFret = 1 then
        { state := { fb with svg := svg ++ [Cmd.fretLabel "1" 8] }, thrown := none }
      else
        { state := { fb with svg := svg }, thrown := none }
  else
    { state := { fb with svg := svg }, thrown := none }

/-- The method `_drawNotes()`. The argument `note p k` is the text
`Note.Parse(p).getTransposition(k).toString()`, `p` being `tuning[string-1]`. -/
def _drawNotes (note : Option String → Int → String) (fb : Fretboard) : Fretboard :=
  let svg := fb.svg ++ [Cmd.group "notes" 35 (_getAbsoluteFretPos ((fb.config.frets : Int) + 1))]
  let tuning := fb.config.tuning
  let fingering := _getFretStructure fb.config
  let svg := (List.range fingering.length).foldl
    (fun (svg : List Cmd) (i : Nat) =>
      let string : Int := (fb.config.strings : Int) - (i : Int)
      match fingering[i]? with
      | none => svg
      | some fret =>
        -- ignore unplayed frets
        if fret = -1 then svg
        else
          let intervalNote := note (elemAt tuning (string - 1)) fret
          let offset : Int := if intervalNote.length = 2 then 7 else 4
          svg ++ [Cmd.note intervalNote (_getStringPos fb.config ((i : Int) + 1) - offset)])
    svg
  { fb with svg := svg }

/-- The method `_draw()`; an exception of `_drawFretLabels` ends it before `_drawNotes`. -/
def _draw (note : Option String → Int → String) (fb : Fretboard) : Outcome :=
  let fb := { fb with svg := [Cmd.viewbox (((fb.config.strings : Int) + 1) * 25)
    (((fb.config.frets : Int) + 1) * 40)] }
  let fb := _drawGrid fb
  let fb := _drawFretMarkers fb
  let labels := _drawFretLabels fb
  match labels.thrown with
  | some err => { state := labels.state, thrown := some err }
  | none => { state := _drawNotes note labels.state, thrown := none }

/-- The constructor of the class: `_initiateConfig(config)`, then `_draw()`. -/
def create (note : Option String → Int → String) (config : Config) : Outcome :=
  _draw note { config := config, svg := [] }

/-- The note labels of a picture. -/
def noteLabels (svg : List Cmd) : List Cmd :=
  svg.filter (fun c => match c with
    | .note _ _ => true
    | _ => false)

/-! ## Notions of the specification -/

/-- What the scan state `(min, max)` is after the entries `seen`. -/
def ScanInv (st : Num × Num) (seen : List Entry) : Prop :=
  (frettedValues seen = [] ∧ st = (Num.posInf, Num.negInf)) ∨
  (∃ m M : Int, st = (Num.fin m, Num.fin M) ∧ m ∈ frettedValues seen ∧
    M ∈ frettedValues seen ∧ ∀ x ∈ frettedValues seen, m ≤ x ∧ x ≤ M)

/-- Entry `e` mentions string `s`: directly, or through a barre range
`[min(a,b), max(a,b)]` that contains `s`. -/
def mentions (e : Entry) (s : Int) : Bool :=
  match e.string with
  | .single t => decide (t = s)
  | .range a b => decide (min a b ≤ s ∧ s ≤ max a b)

/-- The fret values of the entries of a fingering list that mention string `s`. -/
def mentionedFrets (fingering : List Entry) (s : Int) : List Int :=
  (fingering.filter (fun e => mentions e s)).map Entry.fret

/-- The maximum of a list of integers, `none` for the empty list. -/
def maxOfList : List Int → Option Int
  | [] => none
  | x :: xs =>
    match maxOfList xs with
    | none => some x
    | some m => some (max x m)

/-- The highest fret value fingered on string `s`, or `-1` if `s` is never mentioned. -/
def highestFret (fingering : List Entry) (s : Int) : Int :=
  (maxOfList (mentionedFrets fingering s)).getD (-1)

/-! ## Lemmas on `_getFirstFret` -/

theorem frettedValues_append (l₁ l₂ : List Entry) :
    frettedValues (l₁ ++ l₂) = frettedValues l₁ ++ frettedValues l₂ := by
  simp [frettedValues]

theorem frettedValues_singleton (e : Entry) :
    frettedValues [e] = if e.fret = -1 ∨ e.fret = 0 then [] else [e.fret] := by
  by_cases h : e.fret = -1 ∨ e.fret = 0
  · rcases h with h | h <;> simp [frettedValues, h]
  · have h0 : e.fret ≠ 0 := fun h0 => h (Or.inr h0)
    have h1 : e.fret ≠ -1 := fun h1 => h (Or.inl h1)
    simp [frettedValues, h0, h1]

theorem scanInv_step (st : Num × Num) (seen : List Entry) (e : Entry)
    (h : ScanInv st seen) : ScanInv (firstFretStep st e) (seen ++ [e]) := by
  unfold ScanInv at h ⊢
  rw [frettedValues_append, frettedValues_singleton]
  by_cases hk : e.fret = -1 ∨ e.fret = 0
  · simpa [firstFretStep, hk] using h
  · rcases h with ⟨hnil, hst⟩ | ⟨m, M, hst, hm, hM, hb⟩
    · right
      refine ⟨e.fret, e.fret, ?_, ?_, ?_, ?_⟩
      · simp [firstFretStep, hk, hst, Num.lt]
      · simp [hk]
      · simp [hk]
      · intro x hx
        simp [hk, hnil] at hx
        subst hx
        exact ⟨le_refl _, le_refl _⟩
    · right
      refine ⟨min m e.fret, max M e.fret, ?_, ?_, ?_, ?_⟩
      · simp only [firstFretStep, hk, if_false, hst, Num.lt]
        by_cases h1 : e.fret < m <;> by_cases h2 : M < e.fret <;>
          simp [h1, h2] <;> omega
      · simp only [hk, if_false, List.mem_append, List.mem_singleton]
        rcases le_total m e.fret with h1 | h1
        · left; rwa [min_eq_left h1]
        · right; rw [min_eq_right h1]
      · simp only [hk, if_false, List.mem_append, List.mem_singleton]
        rcases le_total M e.fret with h1 | h1
        · right; rw [max_eq_right h1]
        · left; rwa [max_eq_left h1]
      · intro x hx
        simp only [hk, if_false, List.mem_append, List.mem_singleton] at hx
        rcases hx with hx | hx
        · have := hb x hx
          exact ⟨le_trans (min_le_left _ _) this.1, le_trans this.2 (le_max_left _ _)⟩
        · subst hx
          exact ⟨min_le_right _ _, le_max_right _ _⟩

theorem scanInv_foldl (l : List Entry) :
    ∀ (st : Num × Num) (seen : List Entry), ScanInv st seen →
      ScanInv (l.foldl firstFretStep st) (seen ++ l) := by
  induction l with
  | nil => intro st seen h; simpa using h
  | cons e l ih =>
    intro st seen h
    have := ih (firstFretStep st e) (seen ++ [e]) (scanInv_step st seen e h)
    simpa using this

theorem scanInv_run (fingering : List Entry) :
    ScanInv (fingering.foldl firstFretStep (Num.posInf, Num.negInf)) fingering := by
  have := scanInv_foldl fingering (Num.posInf, Num.negInf) [] (Or.inl ⟨rfl, rfl⟩)
  simpa using this


/-! ## Lemmas on `_getFretStructure` -/

theorem maxOfList_eq_some_iff (l : List Int) (v : Int) :
    maxOfList l = some v ↔ v ∈ l ∧ ∀ x ∈ l, x ≤ v := by
  induction l generalizing v with
  | nil => simp [maxOfList]
  | cons a l ih =>
    cases hm : maxOfList l with
    | none =>
      have hl : l = [] := by
        cases l with
        | nil => rfl
        | cons b t =>
          exfalso
          simp only [maxOfList] at hm
          cases h2 : maxOfList t <;> simp [h2] at hm
      subst hl
      simp only [maxOfList, Option.some.injEq, List.mem_singleton, forall_eq]
      constructor
      · intro h; subst h; exact ⟨rfl, le_refl _⟩
      · intro h; exact h.1.symm
    | some m =>
      have hmm := (ih m).1 hm
      simp only [maxOfList, hm, Option.some.injEq, List.mem_cons, forall_eq_or_imp]
      constructor
      · intro h
        subst h
        refine ⟨?_, le_max_left _ _, fun x hx => le_trans (hmm.2 x hx) (le_max_right _ _)⟩
        rcases le_total a m with h1 | h1
        · right; rw [max_eq_right h1]; exact hmm.1
        · left; rw [max_eq_left h1]
      · rintro ⟨hv, hav, hall⟩
        apply le_antisymm
        · exact max_le hav (hall m hmm.1)
        · rcases hv with hv | hv
          · subst hv; exact le_max_left _ _
          · exact le_trans (hmm.2 v hv) (le_max_right _ _)

theorem maxOfList_eq_none_iff (l : List Int) : maxOfList l = none ↔ l = [] := by
  cases l with
  | nil => simp [maxOfList]
  | cons a t =>
    simp only [maxOfList]
    cases h2 : maxOfList t <;> simp

theorem foldl_max_eq (l : List Int) :
    ∀ a : Int, l.foldl max a = max a ((maxOfList l).getD a) := by
  induction l with
  | nil => intro a; simp [maxOfList]
  | cons x l ih =>
    intro a
    rw [List.foldl_cons, ih]
    cases hm : maxOfList l with
    | none => simp [maxOfList, hm]
    | some m => simp [maxOfList, hm, max_assoc]

theorem elemAt_natCast {α : Type} (l : List α) (k : Nat) : elemAt l (k : Int) = l[k]? := by
  simp [elemAt]

theorem raiseFret_length (arr : List Int) (s f : Int) :
    (raiseFret arr s f).length = arr.length := by
  unfold raiseFret
  split
  · rfl
  · split <;> simp

theorem raiseFret_getElem? (arr : List Int) (s f : Int) (k : Nat) :
    (raiseFret arr s f)[k]? =
      (arr[k]?).map (fun cur => if (k : Int) + 1 = s then max cur f else cur) := by
  unfold raiseFret elemAt
  by_cases hneg : s - 1 < 0
  · have hk : ¬ ((k : Int) + 1 = s) := by omega
    simp [hneg, hk]
  · simp only [hneg, if_false]
    by_cases hks : (k : Int) + 1 = s
    · have hidx : (s - 1).toNat = k := by omega
      simp only [hidx, hks, if_true]
      cases hget : arr[k]? with
      | none => simp [hget]
      | some cur =>
        simp only [Option.map_some']
        by_cases hgt : f > cur
        · have hlen : k < arr.length := by
            rcases Nat.lt_or_ge k arr.length with h | h
            · exact h
            · rw [List.getElem?_eq_none h] at hget; cases hget
          simp [hgt, List.getElem?_set, hlen, max_eq_right (le_of_lt hgt)]
        · have : f ≤ cur := not_lt.mp hgt
          simp [hgt, hget, max_eq_left this]
    · have hidx : (s - 1).toNat ≠ k := by omega
      simp only [hks, if_false, Option.map_id']
      cases hget : arr[(s - 1).toNat]? with
      | none => rfl
      | some cur =>
        by_cases hgt : f > cur
        · simp only [hgt, if_true]
          exact List.getElem?_set_ne hidx
        · simp [hgt]

theorem foldl_raiseFret_length (l : List Int) (f : Int) :
    ∀ arr : List Int, (l.foldl (fun acc s => raiseFret acc s f) arr).length = arr.length := by
  induction l with
  | nil => intro arr; rfl
  | cons s l ih => intro arr; rw [List.foldl_cons, ih, raiseFret_length]

theorem foldl_raiseFret_getElem? (l : List Int) (f : Int) (k : Nat) :
    ∀ arr : List Int, (l.foldl (fun acc s => raiseFret acc s f) arr)[k]? =
      (arr[k]?).map (fun cur => if (k : Int) + 1 ∈ l then max cur f else cur) := by
  induction l with
  | nil => intro arr; simp
  | cons s l ih =>
    intro arr
    rw [List.foldl_cons, ih, raiseFret_getElem?]
    cases arr[k]? with
    | none => rfl
    | some cur =>
      simp only [Option.map_some', List.mem_cons]
      by_cases h1 : (k : Int) + 1 = s <;> by_cases h2 : (k : Int) + 1 ∈ l <;>
        simp [h1, h2]

theorem mem_stringsFromTo (lo hi x : Int) : x ∈ stringsFromTo lo hi ↔ lo ≤ x ∧ x ≤ hi := by
  unfold stringsFromTo
  simp only [List.mem_map, List.mem_range]
  constructor
  · rintro ⟨i, hi1, rfl⟩
    omega
  · rintro ⟨h1, h2⟩
    refine ⟨(x - lo).toNat, ?_, ?_⟩ <;> omega

theorem fretStructureStep_length (arr : List Int) (e : Entry) :
    (fretStructureStep arr e).length = arr.length := by
  unfold fretStructureStep
  cases e.string with
  | single s => exact raiseFret_length _ _ _
  | range a b => exact foldl_raiseFret_length _ _ _

theorem fretStructureStep_getElem? (arr : List Int) (e : Entry) (k : Nat) :
    (fretStructureStep arr e)[k]? =
      (arr[k]?).map (fun cur => if mentions e ((k : Int) + 1) then max cur e.fret else cur) := by
  unfold fretStructureStep mentions
  cases e.string with
  | single s =>
    simp only [raiseFret_getElem?]
    congr 1
    funext cur
    by_cases h : (k : Int) + 1 = s
    · simp [h]
    · have h2 : ¬ (s = (k : Int) + 1) := fun h2 => h h2.symm
      simp [h, h2]
  | range a b =>
    simp only [foldl_raiseFret_getElem?, mem_stringsFromTo]
    congr 1
    funext cur
    by_cases h : min a b ≤ (k : Int) + 1 ∧ (k : Int) + 1 ≤ max a b
    · simp [h]
    · simp [h]

theorem foldl_fretStructureStep_length (l : List Entry) :
    ∀ arr : List Int, (l.foldl fretStructureStep arr).length = arr.length := by
  induction l with
  | nil => intro arr; rfl
  | cons e l ih => intro arr; rw [List.foldl_cons, ih, fretStructureStep_length]

theorem foldl_fretStructureStep_getElem? (l : List Entry) (k : Nat) :
    ∀ arr : List Int, (l.foldl fretStructureStep arr)[k]? =
      (arr[k]?).map (fun cur => (mentionedFrets l ((k : Int) + 1)).foldl max cur) := by
  induction l with
  | nil => intro arr; simp [mentionedFrets]
  | cons e l ih =>
    intro arr
    rw [List.foldl_cons, ih, fretStructureStep_getElem?]
    cases arr[k]? with
    | none => rfl
    | some cur =>
      simp only [Option.map_some', mentionedFrets, List.filter_cons]
      by_cases h : mentions e ((k : Int) + 1) = true
      · simp [h]
      · simp [h]

theorem getFretStructure_length (config : Config) :
    (_getFretStructure config).length = config.strings := by
  unfold _getFretStructure
  rw [foldl_fretStructureStep_length, List.length_replicate]

theorem getFretStructure_getElem? (config : Config) (k : Nat) (hk : k < config.strings) :
    (_getFretStructure config)[k]? =
      some (max (-1) (highestFret config.fingering ((k : Int) + 1))) := by
  unfold _getFretStructure highestFret
  rw [foldl_fretStructureStep_getElem?, List.getElem?_replicate]
  simp [hk, foldl_max_eq]

theorem mem_mentionedFrets (fingering : List Entry) (s x : Int) :
    x ∈ mentionedFrets fingering s ↔ ∃ e ∈ fingering, mentions e s = true ∧ e.fret = x := by
  simp [mentionedFrets, and_assoc]

theorem highestFret_of_not_mentioned (fingering : List Entry) (s : Int)
    (h : ∀ e ∈ fingering, mentions e s = false) : highestFret fingering s = -1 := by
  have hnil : mentionedFrets fingering s = [] := by
    unfold mentionedFrets
    rw [List.map_eq_nil_iff, List.filter_eq_nil_iff]
    intro e he
    simp [h e he]
  simp [highestFret, hnil, maxOfList]

theorem highestFret_le_iff (fingering : List Entry) (s : Int) :
    highestFret fingering s ≤ -1 ↔ ∀ e ∈ fingering, mentions e s = true → e.fret ≤ -1 := by
  unfold highestFret
  cases hm : maxOfList (mentionedFrets fingering s) with
  | none =>
    have hnil := (maxOfList_eq_none_iff _).1 hm
    simp only [Option.getD_none, le_refl, true_iff]
    intro e he hme
    have : e.fret ∈ mentionedFrets fingering s :=
      (mem_mentionedFrets _ _ _).2 ⟨e, he, hme, rfl⟩
    rw [hnil] at this
    cases this
  | some m =>
    have hmm := (maxOfList_eq_some_iff _ _).1 hm
    simp only [Option.getD_some]
    constructor
    · intro hle e he hme
      exact le_trans (hmm.2 _ ((mem_mentionedFrets _ _ _).2 ⟨e, he, hme, rfl⟩)) hle
    · intro hall
      obtain ⟨e, he, hme, hfe⟩ := (mem_mentionedFrets _ _ _).1 hmm.1
      rw [← hfe]
      exact hall e he hme

theorem highestFret_ge (fingering : List Entry) (s : Int)
    (h : ∀ e ∈ fingering, mentions e s = true → -1 ≤ e.fret) :
    -1 ≤ highestFret fingering s := by
  unfold highestFret
  cases hm : maxOfList (mentionedFrets fingering s) with
  | none => simp
  | some m =>
    have hmm := (maxOfList_eq_some_iff _ _).1 hm
    obtain ⟨e, he, hme, hfe⟩ := (mem_mentionedFrets _ _ _).1 hmm.1
    simp only [Option.getD_some]
    rw [← hfe]
    exact h e he hme

theorem getFretStructure_elemAt (config : Config) (s : Int) (h1 : 1 ≤ s)
    (h2 : s ≤ config.strings) :
    elemAt (_getFretStructure config) (s - 1) =
      some (max (-1) (highestFret config.fingering s)) := by
  obtain ⟨k, hk⟩ : ∃ k : Nat, s - 1 = (k : Int) := ⟨(s - 1).toNat, by omega⟩
  have hlt : k < config.strings := by omega
  have hs : s = (k : Int) + 1 := by omega
  rw [hk, elemAt_natCast, getFretStructure_getElem? config k hlt, hs]

theorem fretStructureStep_of_not_mentioned (arr : List Int) (e : Entry)
    (h : ∀ s : Int, 1 ≤ s → s ≤ arr.length → mentions e s = false) :
    fretStructureStep arr e = arr := by
  apply List.ext_getElem?
  intro k
  rw [fretStructureStep_getElem?]
  rcases Nat.lt_or_ge k arr.length with hk | hk
  · have hm := h ((k : Int) + 1) (by omega) (by omega)
    rw [List.getElem?_eq_getElem hk]
    simp [hm]
  · rw [List.getElem?_eq_none hk]
    rfl

theorem foldl_emit {ι β : Type} (step : List β → ι → List β) (g : ι → List β)
    (h : ∀ acc i, step acc i = acc ++ g i) (l : List ι) :
    ∀ init : List β, l.foldl step init = init ++ l.flatMap g := by
  induction l with
  | nil => intro init; simp
  | cons i l ih =>
    intro init
    rw [List.foldl_cons, ih, h, List.flatMap_cons, List.append_assoc]

theorem getUnplayedStrings_eq (config : Config) :
    _getUnplayedStrings config =
      ((List.range config.strings).filter
        (fun (i : Nat) => decide ((_getFretStructure config)[i]? = some (-1)))).map
        (fun (i : Nat) => (i : Int) + 1) := by
  unfold _getUnplayedStrings
  simp only []
  rw [foldl_emit _
    (fun (i : Nat) =>
      if (_getFretStructure config)[i]? = some (-1) then [(i : Int) + 1] else [])
    (by
      intro acc i
      by_cases h : (_getFretStructure config)[i]? = some (-1) <;> simp [h]),
    getFretStructure_length]
  generalize List.range config.strings = l
  induction l with
  | nil => rfl
  | cons i l ih =>
    rw [List.flatMap_cons, List.filter_cons]
    by_cases h : (_getFretStructure config)[i]? = some (-1)
    · simp only [h, decide_True, if_true, List.map_cons]
      rw [List.nil_append] at ih ⊢
      simp [ih]
    · simp only [h, decide_False, if_false, Bool.false_eq_true]
      rw [List.nil_append] at ih ⊢
      simp [ih]

theorem mem_getUnplayedStrings (config : Config) (s : Int) :
    s ∈ _getUnplayedStrings config ↔
      1 ≤ s ∧ s ≤ config.strings ∧
        ∀ e ∈ config.fingering, mentions e s = true → e.fret ≤ -1 := by
  rw [getUnplayedStrings_eq]
  simp only [List.mem_map, List.mem_filter, List.mem_range, decide_eq_true_eq]
  constructor
  · rintro ⟨k, ⟨hk, hval⟩, rfl⟩
    rw [getFretStructure_getElem? config k hk] at hval
    have hle : highestFret config.fingering ((k : Int) + 1) ≤ -1 := by
      have := Option.some.inj hval
      rcases le_total (-1) (highestFret config.fingering ((k : Int) + 1)) with h | h
      · rw [max_eq_right h] at this; omega
      · exact h
    exact ⟨by omega, by omega, (highestFret_le_iff _ _).1 hle⟩
  · rintro ⟨h1, h2, hall⟩
    refine ⟨(s - 1).toNat, ⟨by omega, ?_⟩, by omega⟩
    have hk : (s - 1).toNat < config.strings := by omega
    rw [getFretStructure_getElem? config _ hk]
    have hs : (((s - 1).toNat : Nat) : Int) + 1 = s := by omega
    rw [hs, max_eq_left ((highestFret_le_iff _ _).2 hall)]

theorem getUnplayedStrings_pairwise (config : Config) :
    (_getUnplayedStrings config).Pairwise (fun a b => a < b) := by
  rw [getUnplayedStrings_eq]
  apply List.Pairwise.map _ _ ((List.pairwise_lt_range _).filter _)
  intro a b hab
  omega

theorem addSingleFretMarker_config (fb : Fretboard) (s fret : Int) (label : Label) :
    (addSingleFretMarker fb s fret label).config = fb.config := by
  unfold addSingleFretMarker
  simp only []
  split
  · rfl
  · split <;> rfl

theorem addFretMarker_config (fb : Fretboard) (string : StringRef) (fret : Int)
    (label : Label) : (addFretMarker fb string fret label).config = fb.config := by
  unfold addFretMarker
  cases string with
  | single s => exact addSingleFretMarker_config _ _ _ _
  | range a b => simp only [addSingleFretMarker_config]

theorem foldl_addFretMarker_config (l : List Entry) :
    ∀ fb : Fretboard,
      (l.foldl (fun fb d => addFretMarker fb d.string d.fret d.finger) fb).config =
        fb.config := by
  induction l with
  | nil => intro fb; rfl
  | cons d l ih => intro fb; rw [List.foldl_cons, ih, addFretMarker_config]

theorem drawFretMarkers_fingering (fb : Fretboard) :
    (_drawFretMarkers fb).config.fingering =
      fb.config.fingering ++ (_getUnplayedStrings fb.config).map
        (fun s => ({ string := .single s, fret := -1, finger := .num 0 } : Entry)) := by
  unfold _drawFretMarkers
  simp only [foldl_addFretMarker_config]
  rw [foldl_emit _ (fun s => [({ string := .single s, fret := -1, finger := .num 0 } : Entry)])
    (by intro acc i; rfl)]
  congr 1
  generalize _getUnplayedStrings fb.config = l
  induction l with
  | nil => rfl
  | cons a l ih => simp [List.flatMap_cons, ih]

/-! ## Lemmas on the drawing loops -/

theorem flatMap_eq_map_flatMap {ι κ β : Type} (l : List ι) (f : ι → κ) (g : ι → List β)
    (h : κ → List β) (hgh : ∀ i ∈ l, g i = h (f i)) :
    l.flatMap g = (l.map f).flatMap h := by
  induction l with
  | nil => rfl
  | cons i l ih =>
    rw [List.flatMap_cons, List.map_cons, List.flatMap_cons, hgh i (List.mem_cons_self _ _),
      ih (fun j hj => hgh j (List.mem_cons_of_mem _ hj))]

theorem flatMap_singleton_eq_map {ι β : Type} (l : List ι) (f : ι → β) :
    l.flatMap (fun i => [f i]) = l.map f := by
  induction l with
  | nil => rfl
  | cons i l ih => rw [List.flatMap_cons, List.map_cons, ih]; rfl

/-- The picture after `_drawGrid`: the group, the fret bars, the strings. -/
theorem drawGrid_svg (fb : Fretboard) :
    (_drawGrid fb).svg = fb.svg ++ [Cmd.group "grid" 35 20] ++
      (List.range (fb.config.frets + 1)).map (fun (i : Nat) =>
        Cmd.gridRect (((fb.config.strings : Int) - 1) * 25 + 2)
          (if i = 0 ∧ _getFirstFret fb.config.fingering = Num.fin 1 then 6 else 2)
          0 ((i : Int) * 30)) ++
      (List.range fb.config.strings).map (fun (i : Nat) =>
        Cmd.gridRect 2 ((fb.config.frets : Int) * 30) ((i : Int) * 25) 0) := by
  unfold _drawGrid
  simp only []
  rw [foldl_emit _ (fun (i : Nat) =>
      [Cmd.gridRect 2 ((fb.config.frets : Int) * 30) ((i : Int) * 25) 0])
    (by intro acc i; rfl)]
  rw [foldl_emit _ (fun (i : Nat) =>
      [Cmd.gridRect (((fb.config.strings : Int) - 1) * 25 + 2)
        (if i = 0 ∧ _getFirstFret fb.config.fingering = Num.fin 1 then 6 else 2)
        0 ((i : Int) * 30)])
    (by
      intro acc i
      by_cases h : i = 0 ∧ _getFirstFret fb.config.fingering = Num.fin 1
      · simp only [if_pos h]
      · simp only [if_neg h])]
  rw [flatMap_singleton_eq_map, flatMap_singleton_eq_map]

/-- The picture after `_drawNotes`: the group, then the labels string by string. -/
theorem drawNotes_svg (note : Option String → Int → String) (fb : Fretboard) :
    (_drawNotes note fb).svg =
      fb.svg ++ [Cmd.group "notes" 35 (_getAbsoluteFretPos ((fb.config.frets : Int) + 1))] ++
      ((List.range fb.config.strings).map (fun (i : Nat) => (i : Int) + 1)).flatMap
        (fun (s : Int) =>
          match elemAt (_getFretStructure fb.config) (s - 1) with
          | none => []
          | some f =>
            if f = -1 then []
            else
              [Cmd.note (note (elemAt fb.config.tuning ((fb.config.strings : Int) - s)) f)
                (_getStringPos fb.config s -
                  (if (note (elemAt fb.config.tuning
                      ((fb.config.strings : Int) - s)) f).length = 2 then 7 else 4))]) := by
  unfold _drawNotes
  simp only []
  rw [foldl_emit _ (fun (i : Nat) =>
      match (_getFretStructure fb.config)[i]? with
      | none => []
      | some fret =>
        if fret = -1 then []
        else
          [Cmd.note (note (elemAt fb.config.tuning
              ((fb.config.strings : Int) - (i : Int) - 1)) fret)
            (_getStringPos fb.config ((i : Int) + 1) -
              (if (note (elemAt fb.config.tuning
                  ((fb.config.strings : Int) - (i : Int) - 1)) fret).length = 2
                then 7 else 4))])
    (by
      intro acc i
      beta_reduce
      cases hget : (_getFretStructure fb.config)[i]? with
      | none => simp
      | some fret =>
        by_cases h : fret = -1
        · simp [h]
        · simp [h]),
    getFretStructure_length]
  congr 1
  apply flatMap_eq_map_flatMap
  intro i _
  have h1 : (i : Int) + 1 - 1 = (i : Int) := by omega
  have h2 : (fb.config.strings : Int) - ((i : Int) + 1) =
      (fb.config.strings : Int) - (i : Int) - 1 := by omega
  simp only [h1, h2, elemAt_natCast]

theorem drawNotes_config (note : Option String → Int → String) (fb : Fretboard) :
    (_drawNotes note fb).config = fb.config := rfl

theorem drawFretLabels_config (fb : Fretboard) :
    (_drawFretLabels fb).state.config = fb.config := by
  unfold _drawFretLabels
  simp only []
  split
  · rfl
  · split
    · split
      · rfl
      · split <;> rfl
    · rfl

theorem drawGrid_config (fb : Fretboard) : (_drawGrid fb).config = fb.config := rfl

theorem drawFretMarkers_config_of_config (fb fb' : Fretboard) (h : fb.config = fb'.config) :
    (_drawFretMarkers fb).config = (_drawFretMarkers fb').config := by
  unfold _drawFretMarkers
  simp only [foldl_addFretMarker_config, h]

theorem drawGrid_config_svg (fb : Fretboard) (svg : List Cmd) :
    (_drawFretMarkers (_drawGrid { fb with svg := svg })).config =
      (_drawFretMarkers fb).config :=
  drawFretMarkers_config_of_config _ _ rfl

/-! ## Further lemmas on `_getFirstFret` and `_getFretStructure` -/

theorem getFirstFret_cases (fingering : List Entry) :
    (_getFirstFret fingering = Num.fin 1 ∧ ∀ x ∈ frettedValues fingering, x ≤ 5) ∨
    (∃ m : Int, _getFirstFret fingering = Num.fin m ∧ m ∈ frettedValues fingering ∧
      (∀ x ∈ frettedValues fingering, m ≤ x) ∧ ∃ x ∈ frettedValues fingering, 5 < x) := by
  unfold _getFirstFret
  rcases scanInv_run fingering with ⟨hnil, hst⟩ | ⟨m, M, hst, hm, hM, hb⟩
  · left
    refine ⟨by simp [hst, Num.le, Num.lt], ?_⟩
    intro x hx
    rw [hnil] at hx
    cases hx
  · by_cases h5 : M ≤ 5
    · left
      refine ⟨?_, fun x hx => le_trans (hb x hx).2 h5⟩
      simp only [hst, Num.le, Num.lt]
      rcases eq_or_lt_of_le h5 with h | h
      · simp [h]
      · simp [h]
    · right
      refine ⟨m, ?_, hm, fun x hx => (hb x hx).1, M, hM, by omega⟩
      have hne : ¬ (M = 5) := by omega
      have hlt : ¬ (M < 5) := by omega
      simp [hst, Num.le, Num.lt, hne, hlt]

theorem mem_frettedValues (fingering : List Entry) (x : Int) :
    x ∈ frettedValues fingering ↔ ∃ e ∈ fingering, e.fret = x ∧ x ≠ 0 ∧ x ≠ -1 := by
  simp only [frettedValues, List.mem_filter, List.mem_map, decide_eq_true_eq]
  constructor
  · rintro ⟨⟨e, he, rfl⟩, h⟩
    exact ⟨e, he, rfl, h⟩
  · rintro ⟨e, he, rfl, h⟩
    exact ⟨⟨e, he, rfl⟩, h⟩

theorem foldl_firstFretStep_closed (l : List Entry) (hl : ∀ e ∈ l, e.fret = -1) :
    ∀ st : Num × Num, l.foldl firstFretStep st = st := by
  induction l with
  | nil => intro st; rfl
  | cons e l ih =>
    intro st
    have he : e.fret = -1 := hl e (List.mem_cons_self _ _)
    rw [List.foldl_cons, ih (fun x hx => hl x (List.mem_cons_of_mem _ hx))]
    simp [firstFretStep, he]

theorem getFirstFret_append_closed (fingering l : List Entry) (hl : ∀ e ∈ l, e.fret = -1) :
    _getFirstFret (fingering ++ l) = _getFirstFret fingering := by
  unfold _getFirstFret
  rw [List.foldl_append, foldl_firstFretStep_closed l hl]

theorem le_foldl_max (l : List Int) : ∀ a : Int, a ≤ l.foldl max a := by
  induction l with
  | nil => intro a; exact le_refl _
  | cons x l ih => intro a; exact le_trans (le_max_left a x) (ih (max a x))

theorem foldl_max_of_le (l : List Int) :
    ∀ a : Int, (∀ x ∈ l, x ≤ a) → l.foldl max a = a := by
  induction l with
  | nil => intro a _; rfl
  | cons x l ih =>
    intro a h
    rw [List.foldl_cons, max_eq_left (h x (List.mem_cons_self _ _))]
    exact ih a (fun y hy => h y (List.mem_cons_of_mem _ hy))

theorem mem_le_foldl_max (l : List Int) : ∀ a : Int, ∀ x ∈ l, x ≤ l.foldl max a := by
  induction l with
  | nil => intro a x hx; cases hx
  | cons y l ih =>
    intro a x hx
    rw [List.foldl_cons]
    rcases List.mem_cons.1 hx with h | h
    · subst h
      exact le_trans (le_max_right a x) (le_foldl_max l _)
    · exact ih _ x h

theorem mentionedFrets_append (l₁ l₂ : List Entry) (s : Int) :
    mentionedFrets (l₁ ++ l₂) s = mentionedFrets l₁ s ++ mentionedFrets l₂ s := by
  simp [mentionedFrets]

theorem getFretStructure_append_of_le (config : Config) (l : List Entry)
    (h : ∀ k : Nat, ∀ x ∈ mentionedFrets l ((k : Int) + 1),
      x ≤ (mentionedFrets config.fingering ((k : Int) + 1)).foldl max (-1)) :
    _getFretStructure { config with fingering := config.fingering ++ l } =
      _getFretStructure config := by
  apply List.ext_getElem?
  intro k
  unfold _getFretStructure
  simp only [foldl_fretStructureStep_getElem?, mentionedFrets_append, List.foldl_append,
    List.getElem?_replicate]
  by_cases hk : k < config.strings
  · simp only [hk, if_true, Option.map_some', Option.some.injEq]
    exact foldl_max_of_le _ _ (h k)
  · simp only [hk, if_false, Option.map_none']

theorem getFretStructure_append_closed (config : Config) (l : List Entry)
    (hl : ∀ e ∈ l, e.fret = -1) :
    _getFretStructure { config with fingering := config.fingering ++ l } =
      _getFretStructure config := by
  apply getFretStructure_append_of_le
  intro k x hx
  obtain ⟨e, he, _, hfe⟩ := (mem_mentionedFrets _ _ _).1 hx
  rw [← hfe, hl e he]
  exact le_foldl_max _ _

/-! ## Lemmas on the markers and the fret labels -/

theorem addSingleFretMarker_svg (fb : Fretboard) (s fret : Int) (label : Label) :
    (addSingleFretMarker fb s fret label).svg =
      fb.svg ++ (addSingleFretMarker (Fretboard.mk fb.config []) s fret label).svg := by
  unfold addSingleFretMarker
  simp only []
  split
  · simp
  · split <;> simp

theorem drawFretLabels_svg (fb : Fretboard) :
    (_drawFretLabels fb).state.svg = fb.svg ++ [Cmd.group "fret_labels" 0 20] ++
      (if fb.config.showFretLabels then
        (List.range fb.config.frets).map (fun (i : Nat) =>
          Cmd.fretLabel ((_getFirstFret fb.config.fingering).add (i : Int)).toString
            ((i : Int) * 30 + 8))
      else if _getFirstFret fb.config.fingering ≠ Num.fin 1 then
        (if fb.config.startingFret = some 1 then [Cmd.fretLabel "1" 8] else [])
      else []) := by
  unfold _drawFretLabels
  simp only []
  by_cases h1 : fb.config.showFretLabels = true
  · simp only [h1, if_true]
    rw [foldl_emit _ (fun (i : Nat) =>
        [Cmd.fretLabel ((_getFirstFret fb.config.fingering).add (i : Int)).toString
          ((i : Int) * 30 + 8)])
      (by intro acc i; rfl), flatMap_singleton_eq_map]
  · simp only [h1, if_false]
    by_cases h2 : _getFirstFret fb.config.fingering ≠ Num.fin 1
    · rw [if_pos h2, if_pos h2]
      cases hstart : fb.config.startingFret with
      | none => simp
      | some v =>
        by_cases h3 : v = 1
        · simp [h3]
        · simp [h3]
    · rw [if_neg h2, if_neg h2]
      simp

theorem drawFretLabels_thrown (fb : Fretboard) :
    (_drawFretLabels fb).thrown =
      if fb.config.showFretLabels = false ∧ _getFirstFret fb.config.fingering ≠ Num.fin 1 ∧
          fb.config.startingFret = none then
        some (ConfigError.keyNotExist "startingFret")
      else none := by
  unfold _drawFretLabels
  simp only []
  by_cases h1 : fb.config.showFretLabels = true
  · simp [h1]
  · have h1f : fb.config.showFretLabels = false := by simpa using h1
    simp only [h1, if_false]
    by_cases h2 : _getFirstFret fb.config.fingering ≠ Num.fin 1
    · rw [if_pos h2]
      cases hstart : fb.config.startingFret with
      | none => simp [h1f, h2]
      | some v =>
        by_cases h3 : v = 1
        · simp [h3]
        · simp [h3]
    · rw [if_neg h2]
      simp [h2]

theorem draw_config (note : Option String → Int → String) (fb : Fretboard) :
    (_draw note fb).state.config = (_drawFretMarkers fb).config := by
  unfold _draw
  simp only []
  split
  · rw [drawFretLabels_config, drawGrid_config_svg]
  · rw [drawNotes_config, drawFretLabels_config, drawGrid_config_svg]

theorem draw_thrown (note : Option String → Int → String) (fb : Fretboard) :
    (_draw note fb).thrown = (_drawFretLabels (_drawFretMarkers (_drawGrid
      { fb with svg := [Cmd.viewbox (((fb.config.strings : Int) + 1) * 25)
        (((fb.config.frets : Int) + 1) * 40)] }))).thrown := by
  unfold _draw
  simp only []
  split
  · next err h => rw [h]
  · next h => rw [h]

theorem drawFretMarkers_config (fb : Fretboard) :
    (_drawFretMarkers fb).config = { fb.config with
      fingering := fb.config.fingering ++ (_getUnplayedStrings fb.config).map
        (fun s => ({ string := .single s, fret := -1, finger := .num 0 } : Entry)) } := by
  rw [← drawFretMarkers_fingering]
  unfold _drawFretMarkers
  simp only [foldl_addFretMarker_config]

/-! ## Theorems on `_getFirstFret` -/

/-- C1: if every fret value of the fingering list is at most 5, `_getFirstFret` returns 1;
the empty list and the lists of open and closed entries only are among them. -/
theorem getFirstFret_all_le_five (fingering : List Entry)
    (h : ∀ e ∈ fingering, e.fret ≤ 5) : _getFirstFret fingering = Num.fin 1 := by
  unfold _getFirstFret
  rcases scanInv_run fingering with ⟨_, hst⟩ | ⟨m, M, hst, _, hM, _⟩
  · simp [hst, Num.le, Num.lt]
  · have hM5 : M ≤ 5 := by
      simp only [frettedValues, List.mem_filter, List.mem_map] at hM
      obtain ⟨⟨e, he, rfl⟩, _⟩ := hM
      exact h e he
    simp only [hst, Num.le, Num.lt]
    rcases eq_or_lt_of_le hM5 with h5 | h5
    · simp [h5]
    · simp [h5]

theorem getFirstFret_all_le_five_witness :
    (∀ e ∈ [Entry.mk (.single 1) 0 (.num 0), Entry.mk (.single 2) (-1) (.num 0),
        Entry.mk (.range 3 5) 5 (.num 1)], e.fret ≤ 5) ∧
    _getFirstFret [Entry.mk (.single 1) 0 (.num 0), Entry.mk (.single 2) (-1) (.num 0),
        Entry.mk (.range 3 5) 5 (.num 1)] = Num.fin 1 :=
  ⟨by decide, getFirstFret_all_le_five _ (by decide)⟩

/-- C2: if the largest fretted value of the fingering list (fret values 0 and -1 ignored)
is greater than 5, `_getFirstFret` returns the smallest fretted value of the list. -/
theorem getFirstFret_shifted (fingering : List Entry)
    (h : ∃ x ∈ frettedValues fingering, 5 < x) :
    ∃ m : Int, _getFirstFret fingering = Num.fin m ∧ m ∈ frettedValues fingering ∧
      ∀ x ∈ frettedValues fingering, m ≤ x := by
  obtain ⟨x, hx, hx5⟩ := h
  unfold _getFirstFret
  rcases scanInv_run fingering with ⟨hnil, _⟩ | ⟨m, M, hst, hm, _, hb⟩
  · rw [hnil] at hx; simp at hx
  · refine ⟨m, ?_, hm, fun y hy => (hb y hy).1⟩
    have hM5 : 5 < M := lt_of_lt_of_le hx5 (hb x hx).2
    have hne : ¬ (M = 5) := by omega
    have hlt : ¬ (M < 5) := by omega
    simp [hst, Num.le, Num.lt, hne, hlt]

theorem getFirstFret_shifted_witness :
    (∃ x ∈ frettedValues [Entry.mk (.single 1) 8 (.num 1), Entry.mk (.single 2) 10 (.num 2)],
      5 < x) ∧
    ∃ m : Int, _getFirstFret [Entry.mk (.single 1) 8 (.num 1),
        Entry.mk (.single 2) 10 (.num 2)] = Num.fin m ∧
      m ∈ frettedValues [Entry.mk (.single 1) 8 (.num 1), Entry.mk (.single 2) 10 (.num 2)] ∧
      ∀ x ∈ frettedValues [Entry.mk (.single 1) 8 (.num 1), Entry.mk (.single 2) 10 (.num 2)],
        m ≤ x :=
  ⟨⟨8, by decide, by decide⟩, getFirstFret_shifted _ ⟨8, by decide, by decide⟩⟩

/-! ## Theorems on `_getFretStructure` and `_getUnplayedStrings` -/

/-- C3, as stated, fails: with one string and the single entry of fret `-2` on string 1, the
maximum fret value over the entries that mention string 1 is `-2`, and the structure holds
`-1` there. -/
theorem getFretStructure_below_closed :
    highestFret [Entry.mk (.single 1) (-2) (.num 0)] 1 = -2 ∧
    elemAt (_getFretStructure
      { strings := 1, fingering := [Entry.mk (.single 1) (-2) (.num 0)] }) (1 - 1) = some (-1) ∧
    elemAt (_getFretStructure
      { strings := 1, fingering := [Entry.mk (.single 1) (-2) (.num 0)] }) (1 - 1) ≠
      some (highestFret [Entry.mk (.single 1) (-2) (.num 0)] 1) := by
  decide

/-- C3, amended: `_getFretStructure` returns exactly `strings` entries; entry `s-1`, for `s`
in `1..strings`, is the larger of `-1` and the maximum fret value over the entries that
mention `s` (directly or through a barre range), hence that maximum when the entries that
mention `s` have fret values of `-1` or more, and `-1` when no entry mentions `s`; an entry
that mentions no string of `1..strings` changes nothing. -/
theorem getFretStructure_highest (config : Config) :
    (_getFretStructure config).length = config.strings ∧
    (∀ s : Int, 1 ≤ s → s ≤ config.strings →
      elemAt (_getFretStructure config) (s - 1) =
        some (max (-1) (highestFret config.fingering s))) ∧
    (∀ s : Int, 1 ≤ s → s ≤ config.strings →
      (∀ e ∈ config.fingering, mentions e s = true → -1 ≤ e.fret) →
      elemAt (_getFretStructure config) (s - 1) = some (highestFret config.fingering s)) ∧
    (∀ s : Int, 1 ≤ s → s ≤ config.strings →
      (∀ e ∈ config.fingering, mentions e s = false) →
      elemAt (_getFretStructure config) (s - 1) = some (-1)) ∧
    (∀ (pre post : List Entry) (e : Entry),
      (∀ s : Int, 1 ≤ s → s ≤ config.strings → mentions e s = false) →
      _getFretStructure { config with fingering := pre ++ e :: post } =
        _getFretStructure { config with fingering := pre ++ post }) := by
  refine ⟨getFretStructure_length config, getFretStructure_elemAt config, ?_, ?_, ?_⟩
  · intro s h1 h2 hge
    rw [getFretStructure_elemAt config s h1 h2, max_eq_right (highestFret_ge _ _ hge)]
  · intro s h1 h2 hno
    rw [getFretStructure_elemAt config s h1 h2, highestFret_of_not_mentioned _ _ hno]
    rfl
  · intro pre post e hno
    unfold _getFretStructure
    simp only [List.foldl_append, List.foldl_cons]
    rw [fretStructureStep_of_not_mentioned]
    intro s h1 h2
    rw [foldl_fretStructureStep_length, List.length_replicate] at h2
    exact hno s h1 h2

theorem getFretStructure_highest_witness :
    elemAt (_getFretStructure { strings := 6, fingering :=
      [Entry.mk (.single 1) 0 (.num 0), Entry.mk (.range 5 3) 2 (.num 2),
       Entry.mk (.single 4) 7 (.num 3), Entry.mk (.single 9) 3 (.num 1)] }) (4 - 1) =
      some (max (-1) (highestFret
        [Entry.mk (.single 1) 0 (.num 0), Entry.mk (.range 5 3) 2 (.num 2),
         Entry.mk (.single 4) 7 (.num 3), Entry.mk (.single 9) 3 (.num 1)] 4)) ∧
    highestFret
        [Entry.mk (.single 1) 0 (.num 0), Entry.mk (.range 5 3) 2 (.num 2),
         Entry.mk (.single 4) 7 (.num 3), Entry.mk (.single 9) 3 (.num 1)] 4 = 7 :=
  ⟨(getFretStructure_highest { strings := 6, fingering :=
      [Entry.mk (.single 1) 0 (.num 0), Entry.mk (.range 5 3) 2 (.num 2),
       Entry.mk (.single 4) 7 (.num 3), Entry.mk (.single 9) 3 (.num 1)] }).2.1 4
      (by decide) (by decide), by decide⟩

/-- C4: every string of `1..strings` that no fingering entry mentions is in the result of
`_getUnplayedStrings`, once, the result being in ascending order of string index;
`_drawFretMarkers` appends `{string: s, fret: -1, finger: 0}` to the fingering for each `s`
of the result, in that order; the fingering `[{string 1, fret 8}, {string 2, fret 10}]` on 6
strings gives the unplayed strings 3, 4, 5, 6. -/
theorem getUnplayedStrings_unmentioned (fb : Fretboard) :
    (∀ s : Int, 1 ≤ s → s ≤ fb.config.strings →
      (∀ e ∈ fb.config.fingering, mentions e s = false) →
      s ∈ _getUnplayedStrings fb.config ∧ (_getUnplayedStrings fb.config).count s = 1) ∧
    (_getUnplayedStrings fb.config).Pairwise (fun a b => a < b) ∧
    (_drawFretMarkers fb).config.fingering =
      fb.config.fingering ++ (_getUnplayedStrings fb.config).map
        (fun s => ({ string := .single s, fret := -1, finger := .num 0 } : Entry)) ∧
    _getUnplayedStrings { strings := 6, fingering :=
      [Entry.mk (.single 1) 8 (.num 1), Entry.mk (.single 2) 10 (.num 2)] } = [3, 4, 5, 6] := by
  refine ⟨?_, getUnplayedStrings_pairwise _, drawFretMarkers_fingering fb, by decide⟩
  intro s h1 h2 hno
  have hmem : s ∈ _getUnplayedStrings fb.config := by
    rw [mem_getUnplayedStrings]
    refine ⟨h1, h2, ?_⟩
    intro e he hme
    rw [hno e he] at hme
    cases hme
  refine ⟨hmem, List.count_eq_one_of_mem ?_ hmem⟩
  exact (getUnplayedStrings_pairwise fb.config).imp (fun h => ne_of_lt h)

theorem getUnplayedStrings_unmentioned_witness :
    (_drawFretMarkers (Fretboard.mk { strings := 6, fingering :=
      [Entry.mk (.single 1) 8 (.num 1), Entry.mk (.single 2) 10 (.num 2)] } [])).config.fingering =
    [Entry.mk (.single 1) 8 (.num 1), Entry.mk (.single 2) 10 (.num 2),
     Entry.mk (.single 3) (-1) (.num 0), Entry.mk (.single 4) (-1) (.num 0),
     Entry.mk (.single 5) (-1) (.num 0), Entry.mk (.single 6) (-1) (.num 0)] :=
  ((getUnplayedStrings_unmentioned (Fretboard.mk { strings := 6, fingering :=
      [Entry.mk (.single 1) 8 (.num 1), Entry.mk (.single 2) 10 (.num 2)] } [])).2.2.1).trans (by decide)

/-- C5, as stated, fails: in the configuration of 6 strings with the fingering
`[{1, 0}, {2, 1}, {[3,5], 2}, {6, -1}]` every string of `1..6` is mentioned by an entry, and
`_getUnplayedStrings` returns `[6]`: `_drawFretMarkers` appends a closed entry for string 6
after the explicit one. -/
theorem getUnplayedStrings_explicit_closed :
    (∀ s ∈ [1, 2, 3, 4, 5, 6], ∃ e ∈
      [Entry.mk (.single 1) 0 (.num 0), Entry.mk (.single 2) 1 (.num 1),
       Entry.mk (.range 3 5) 2 (.num 2), Entry.mk (.single 6) (-1) (.num 0)],
      mentions e s = true) ∧
    _getUnplayedStrings { strings := 6, fingering :=
      [Entry.mk (.single 1) 0 (.num 0), Entry.mk (.single 2) 1 (.num 1),
       Entry.mk (.range 3 5) 2 (.num 2), Entry.mk (.single 6) (-1) (.num 0)] } = [6] ∧
    (_drawFretMarkers (Fretboard.mk { strings := 6, fingering :=
      [Entry.mk (.single 1) 0 (.num 0), Entry.mk (.single 2) 1 (.num 1),
       Entry.mk (.range 3 5) 2 (.num 2), Entry.mk (.single 6) (-1) (.num 0)] } [])).config.fingering =
      [Entry.mk (.single 1) 0 (.num 0), Entry.mk (.single 2) 1 (.num 1),
       Entry.mk (.range 3 5) 2 (.num 2), Entry.mk (.single 6) (-1) (.num 0),
       Entry.mk (.single 6) (-1) (.num 0)] := by
  decide

/-- C5, amended: `_getUnplayedStrings` returns the empty list exactly when each string of
`1..strings` is mentioned by at least one fingering entry of fret `0` or more, and then
`_drawFretMarkers` appends no entry to the fingering; a string of `1..strings` whose
mentioning entries all have fret `-1` or less is returned, as string 6 is for the fingering
`[{1, 0}, {2, 1}, {[3,5], 2}, {6, -1}]` on 6 strings. -/
theorem getUnplayedStrings_nil_iff (fb : Fretboard) :
    (_getUnplayedStrings fb.config = [] ↔
      ∀ s : Int, 1 ≤ s → s ≤ fb.config.strings →
        ∃ e ∈ fb.config.fingering, mentions e s = true ∧ 0 ≤ e.fret) ∧
    (_getUnplayedStrings fb.config = [] →
      (_drawFretMarkers fb).config.fingering = fb.config.fingering) ∧
    (∀ s : Int, 1 ≤ s → s ≤ fb.config.strings →
      (∀ e ∈ fb.config.fingering, mentions e s = true → e.fret ≤ -1) →
      s ∈ _getUnplayedStrings fb.config) ∧
    _getUnplayedStrings { strings := 6, fingering :=
      [Entry.mk (.single 1) 0 (.num 0), Entry.mk (.single 2) 1 (.num 1),
       Entry.mk (.range 3 5) 2 (.num 2), Entry.mk (.single 6) (-1) (.num 0)] } = [6] := by
  refine ⟨?_, ?_, ?_, by decide⟩
  · rw [List.eq_nil_iff_forall_not_mem]
    constructor
    · intro hnone s h1 h2
      by_contra hcon
      apply hnone s
      rw [mem_getUnplayedStrings]
      refine ⟨h1, h2, ?_⟩
      intro e he hme
      by_contra hlt
      exact hcon ⟨e, he, hme, by omega⟩
    · intro hall s hs
      rw [mem_getUnplayedStrings] at hs
      obtain ⟨e, he, hme, hfe⟩ := hall s hs.1 hs.2.1
      have := hs.2.2 e he hme
      omega
  · intro hnil
    rw [drawFretMarkers_fingering, hnil]
    simp
  · intro s h1 h2 hall
    rw [mem_getUnplayedStrings]
    exact ⟨h1, h2, hall⟩

theorem getUnplayedStrings_nil_iff_witness :
    _getUnplayedStrings { strings := 2, fingering :=
      [Entry.mk (.range 1 2) 0 (.num 0), Entry.mk (.single 2) (-1) (.num 0)] } = [] →
    (_drawFretMarkers (Fretboard.mk { strings := 2, fingering :=
      [Entry.mk (.range 1 2) 0 (.num 0), Entry.mk (.single 2) (-1) (.num 0)] } [])).config.fingering =
      [Entry.mk (.range 1 2) 0 (.num 0), Entry.mk (.single 2) (-1) (.num 0)] :=
  (getUnplayedStrings_nil_iff (Fretboard.mk { strings := 2, fingering :=
      [Entry.mk (.range 1 2) 0 (.num 0), Entry.mk (.single 2) (-1) (.num 0)] } [])).2.1

/-- C6: replacing a barre entry `{string: [a, b], fret: f}` of a fingering list by the single
entries `{string: s, fret: f}` for `s = min(a,b)..max(a,b)` leaves the result of
`_getFretStructure` unchanged, whatever the order of `a` and `b` and the finger labels; a barre
over `[2,4]` becomes the entries on strings 2, 3, 4. -/
theorem getFretStructure_barre_eq_singles (config : Config) (pre post : List Entry)
    (a b f : Int) (finger : Label) (fingers : Int → Label) :
    _getFretStructure { config with
        fingering := pre ++ [Entry.mk (.range a b) f finger] ++ post } =
      _getFretStructure { config with
        fingering := pre ++ (stringsFromTo (min a b) (max a b)).map
          (fun s => Entry.mk (.single s) f (fingers s)) ++ post } ∧
    stringsFromTo (min 2 4) (max 2 4) = [2, 3, 4] ∧
    stringsFromTo (min 4 2) (max 4 2) = [2, 3, 4] := by
  refine ⟨?_, by decide, by decide⟩
  unfold _getFretStructure
  simp only [List.foldl_append, List.foldl_cons, List.foldl_nil, List.foldl_map]
  congr 1

theorem getFretStructure_barre_eq_singles_witness :
    _getFretStructure { strings := 6, fingering := [Entry.mk (.range 4 2) 3 (.num 1)] } =
      [-1, 3, 3, 3, -1, -1] ∧
    _getFretStructure
        { strings := 6
          fingering := [] ++ (stringsFromTo (min 4 2) (max 4 2)).map
            (fun s => Entry.mk (.single s) 3 (.num s)) ++ [] } = [-1, 3, 3, 3, -1, -1] :=
  ⟨by decide,
   ((getFretStructure_barre_eq_singles { strings := 6 } [] [] 4 2 3 (.num 1)
      (fun s => .num s)).1.symm).trans (by decide)⟩

/-- C7: `_getStringPos(s)` is `(strings - s) * 25`; two consecutive strings are 25 apart, the
position decreases strictly with `s`, and with 6 strings string 1 is at 125 and string 6 at 0. -/
theorem getStringPos_eq (config : Config) (s : Int) :
    _getStringPos config s = ((config.strings : Int) - s) * 25 ∧
    _getStringPos config s - _getStringPos config (s + 1) = 25 ∧
    (∀ t : Int, s < t → _getStringPos config t < _getStringPos config s) ∧
    _getStringPos { strings := 6 } 1 = 125 ∧ _getStringPos { strings := 6 } 6 = 0 := by
  unfold _getStringPos
  refine ⟨rfl, by ring, ?_, by decide, by decide⟩
  intro t hst
  simp only []
  omega

theorem getStringPos_eq_witness :
    _getStringPos { strings := 6 } 5 < _getStringPos { strings := 6 } 2 :=
  (getStringPos_eq { strings := 6 } 2).2.2.1 5 (by decide)

/-! ## Theorems on the drawing methods -/

/-- C8: for every string `s` of `1..strings`, `_drawNotes` adds, in the order of `s`, exactly
one note label when the fret structure value `f` of `s` is not `-1`, its text being the pitch
`tuning[strings - s]` transposed by `f` and its abscissa `_getStringPos(s)` minus the centring
offset, and no label when the value is `-1`; with the tuning `[E, A, D, G, B, E]` and the
fingering `{string 1, fret 3}` the only label is the last tuning entry transposed by 3. -/
theorem drawNotes_labels (note : Option String → Int → String) (fb : Fretboard) :
    (∃ labels : Int → List Cmd,
      (_drawNotes note fb).svg =
        fb.svg ++
          [Cmd.group "notes" 35 (_getAbsoluteFretPos ((fb.config.frets : Int) + 1))] ++
          ((List.range fb.config.strings).map (fun (i : Nat) => (i : Int) + 1)).flatMap labels ∧
      ∀ s : Int, 1 ≤ s → s ≤ fb.config.strings →
        ∃ f : Int, elemAt (_getFretStructure fb.config) (s - 1) = some f ∧
          (f = -1 → labels s = []) ∧
          (f ≠ -1 → labels s =
            [Cmd.note (note (elemAt fb.config.tuning ((fb.config.strings : Int) - s)) f)
              (_getStringPos fb.config s -
                (if (note (elemAt fb.config.tuning
                    ((fb.config.strings : Int) - s)) f).length = 2 then 7 else 4))])) ∧
    (_drawNotes note (Fretboard.mk
        { strings := 6
          fingering := [Entry.mk (.single 1) 3 (.num 1)]
          tuning := ["E2", "A2", "D3", "G3", "B3", "E4"] } [])).svg =
      [Cmd.group "notes" 35 165,
       Cmd.note (note (some "E4") 3)
        (125 - (if (note (some "E4") 3).length = 2 then 7 else 4))] := by
  refine ⟨⟨_, drawNotes_svg note fb, ?_⟩, ?_⟩
  · intro s h1 h2
    have hval := getFretStructure_elemAt fb.config s h1 h2
    refine ⟨_, hval, ?_, ?_⟩
    · intro hf
      simp only [hval, hf, if_true]
    · intro hf
      simp only [hval, hf, if_false]
  · rfl

theorem drawNotes_labels_witness :
    ∃ f : Int, elemAt (_getFretStructure
        { strings := 6
          fingering := [Entry.mk (.single 1) 3 (.num 1)]
          tuning := ["E2", "A2", "D3", "G3", "B3", "E4"] }) (1 - 1) = some f ∧ f = 3 := by
  obtain ⟨labels, _, h⟩ := (drawNotes_labels (fun _ _ => "G")
    (Fretboard.mk
      { strings := 6
        fingering := [Entry.mk (.single 1) 3 (.num 1)]
        tuning := ["E2", "A2", "D3", "G3", "B3", "E4"] } [])).1
  obtain ⟨f, hf, _, _⟩ := h 1 (by decide) (by decide)
  exact ⟨f, hf, Option.some.inj (hf.symm.trans (by decide))⟩

/-- C9, on the code: with `showNotes` false, one string, the fingering `{string 1, fret 0}` and
the tuning `[E]`, the full draw completes and still emits the note label of string 1: `_draw`
calls `_drawNotes` whatever `showNotes` holds. -/
theorem draw_notes_with_showNotes_false :
    ∀ note : Option String → Int → String,
      (create note
        { strings := 1
          fingering := [Entry.mk (.single 1) 0 (.num 0)]
          tuning := ["E"]
          showNotes := false }).thrown = none ∧
      noteLabels (create note
        { strings := 1
          fingering := [Entry.mk (.single 1) 0 (.num 0)]
          tuning := ["E"]
          showNotes := false }).state.svg =
      [Cmd.note (note (some "E") 0)
        (0 - (if (note (some "E") 0).length = 2 then 7 else 4))] :=
  fun _ => ⟨rfl, rfl⟩

/-- C10: `_drawGrid` emits `frets + 1` fret bars, the `i`-th at `y = i * 30`; the top bar has
height 6 if and only if `_getFirstFret` of the fingering is 1, and height 2 otherwise; every
other bar has height 2. -/
theorem drawGrid_bars (fb : Fretboard) :
    ∃ height : Nat → Int,
      (_drawGrid fb).svg = fb.svg ++ [Cmd.group "grid" 35 20] ++
        (List.range (fb.config.frets + 1)).map (fun (i : Nat) =>
          Cmd.gridRect (((fb.config.strings : Int) - 1) * 25 + 2) (height i) 0
            ((i : Int) * 30)) ++
        (List.range fb.config.strings).map (fun (i : Nat) =>
          Cmd.gridRect 2 ((fb.config.frets : Int) * 30) ((i : Int) * 25) 0) ∧
      ((List.range (fb.config.frets + 1)).map (fun (i : Nat) =>
          Cmd.gridRect (((fb.config.strings : Int) - 1) * 25 + 2) (height i) 0
            ((i : Int) * 30))).length = fb.config.frets + 1 ∧
      (height 0 = 6 ↔ _getFirstFret fb.config.fingering = Num.fin 1) ∧
      (_getFirstFret fb.config.fingering ≠ Num.fin 1 → height 0 = 2) ∧
      ∀ i : Nat, 0 < i → height i = 2 := by
  refine ⟨_, drawGrid_svg fb, by simp, ?_, ?_, ?_⟩
  · by_cases h : _getFirstFret fb.config.fingering = Num.fin 1
    · simp [h]
    · simp [h]
  · intro h
    simp [h]
  · intro i hi
    have : i ≠ 0 := by omega
    simp [this]

theorem drawGrid_bars_witness :
    (_drawGrid (Fretboard.mk
      { frets := 2, strings := 2, fingering := [Entry.mk (.single 1) 8 (.num 1)] } [])).svg =
    [Cmd.group "grid" 35 20, Cmd.gridRect 27 2 0 0, Cmd.gridRect 27 2 0 30,
     Cmd.gridRect 27 2 0 60, Cmd.gridRect 2 60 0 0, Cmd.gridRect 2 60 25 0] := by
  obtain ⟨height, hsvg, _, _, h0, hi⟩ := drawGrid_bars (Fretboard.mk
    { frets := 2, strings := 2, fingering := [Entry.mk (.single 1) 8 (.num 1)] } [])
  rw [hsvg]
  have e0 : height 0 = 2 := h0 (by decide)
  have e1 : height 1 = 2 := hi 1 (by decide)
  have e2 : height 2 = 2 := hi 2 (by decide)
  simp [List.range_succ, e0, e1, e2]

/-! ## Theorems on the first fret, repetition and the closed entries -/

/-- C13, on the code: `_getFirstFret` compares with the constant 5 and never reads `frets`.
With 3 frets shown and one entry at fret 5 it returns 1 although fret 5 lies outside the
frets shown, and with 7 frets shown and one entry at fret 7 it returns 7 although every
fretted value is within the frets shown. -/
theorem getFirstFret_ignores_frets :
    (¬ (∀ x ∈ frettedValues
        ({ frets := 3, fingering := [Entry.mk (.single 1) 5 (.num 1)] } : Config).fingering,
        x ≤ (({ frets := 3, fingering := [Entry.mk (.single 1) 5 (.num 1)] } : Config).frets
          : Int)) ∧
      _getFirstFret
        ({ frets := 3, fingering := [Entry.mk (.single 1) 5 (.num 1)] } : Config).fingering =
        Num.fin 1) ∧
    ((∀ x ∈ frettedValues
        ({ frets := 7, fingering := [Entry.mk (.single 1) 7 (.num 1)] } : Config).fingering,
        x ≤ (({ frets := 7, fingering := [Entry.mk (.single 1) 7 (.num 1)] } : Config).frets
          : Int)) ∧
      _getFirstFret
        ({ frets := 7, fingering := [Entry.mk (.single 1) 7 (.num 1)] } : Config).fingering =
        Num.fin 7) := by
  decide

/-- C14: the structure computed from a fingering list concatenated with itself is the
structure computed from the list. -/
theorem getFretStructure_repeat (config : Config) :
    _getFretStructure { config with fingering := config.fingering ++ config.fingering } =
      _getFretStructure config := by
  apply getFretStructure_append_of_le
  intro k x hx
  exact mem_le_foldl_max _ _ x hx

theorem getFretStructure_repeat_witness :
    _getFretStructure { strings := 3, fingering :=
      [Entry.mk (.range 1 2) 2 (.num 1), Entry.mk (.single 2) 4 (.num 3)] ++
      [Entry.mk (.range 1 2) 2 (.num 1), Entry.mk (.single 2) 4 (.num 3)] } = [2, 4, -1] :=
  (getFretStructure_repeat { strings := 3, fingering :=
      [Entry.mk (.range 1 2) 2 (.num 1), Entry.mk (.single 2) 4 (.num 3)] }).trans (by decide)

/-- C19: in a fingering list whose fret values are `-1` or more, for every entry whose fret is
neither `0` nor `-1`, `_getFirstFret` is a number at least 1 and at most the fret of the
entry, and `_getRelativeFretPos` of that fret is at least 15; when some fretted value exceeds
5, `_getFirstFret` is the lowest fretted value and its `_getRelativeFretPos` is 15. -/
theorem getRelativeFretPos_ge (config : Config)
    (hge : ∀ e ∈ config.fingering, -1 ≤ e.fret) (e : Entry) (he : e ∈ config.fingering)
    (hfretted : e.fret ≠ 0 ∧ e.fret ≠ -1) :
    ∃ first : Int, _getFirstFret config.fingering = Num.fin first ∧
      1 ≤ first ∧ first ≤ e.fret ∧
      _getRelativeFretPos config e.fret = Num.fin ((e.fret - first + 1) * 30 - 15) ∧
      15 ≤ (e.fret - first + 1) * 30 - 15 ∧
      ((∃ x ∈ frettedValues config.fingering, 5 < x) →
        first ∈ frettedValues config.fingering ∧
        (∀ x ∈ frettedValues config.fingering, first ≤ x) ∧
        _getRelativeFretPos config first = Num.fin 15) := by
  have hmem : e.fret ∈ frettedValues config.fingering :=
    (mem_frettedValues _ _).2 ⟨e, he, rfl, hfretted⟩
  have hpos : ∀ x ∈ frettedValues config.fingering, 1 ≤ x := by
    intro x hx
    obtain ⟨d, hd, hdx, h0, h1⟩ := (mem_frettedValues _ _).1 hx
    have := hge d hd
    omega
  rcases getFirstFret_cases config.fingering with ⟨h1, hall⟩ | ⟨m, hm, hmm, hmin, hex⟩
  · refine ⟨1, h1, le_refl _, hpos _ hmem, ?_, ?_, ?_⟩
    · simp [_getRelativeFretPos, h1]
    · have := hpos _ hmem
      omega
    · rintro ⟨x, hx, hx5⟩
      have := hall x hx
      omega
  · refine ⟨m, hm, hpos m hmm, hmin _ hmem, ?_, ?_, ?_⟩
    · simp [_getRelativeFretPos, hm]
    · have := hmin _ hmem
      omega
    · intro _
      refine ⟨hmm, hmin, ?_⟩
      simp [_getRelativeFretPos, hm]

theorem getRelativeFretPos_ge_witness :
    ∃ first : Int, _getFirstFret [Entry.mk (.single 1) 8 (.num 1),
        Entry.mk (.single 2) 10 (.num 2), Entry.mk (.single 3) (-1) (.num 0)] = Num.fin first ∧
      1 ≤ first ∧ first ≤ 10 ∧
      _getRelativeFretPos { fingering := [Entry.mk (.single 1) 8 (.num 1),
        Entry.mk (.single 2) 10 (.num 2), Entry.mk (.single 3) (-1) (.num 0)] } 10 =
        Num.fin ((10 - first + 1) * 30 - 15) ∧
      15 ≤ (10 - first + 1) * 30 - 15 :=
  let ⟨first, h1, h2, h3, h4, h5, _⟩ := getRelativeFretPos_ge
    { fingering := [Entry.mk (.single 1) 8 (.num 1),
        Entry.mk (.single 2) 10 (.num 2), Entry.mk (.single 3) (-1) (.num 0)] }
    (by decide) (Entry.mk (.single 2) 10 (.num 2)) (by decide) (by decide)
  ⟨first, h1, h2, h3, h4, h5⟩

/-- C20: with `U` the fingering list followed by `{string: s, fret: -1, finger: 0}` for each
`s` of `_getUnplayedStrings`, `_getFirstFret(U)` is `_getFirstFret` of the list and the fret
structure of `U` is that of the list; so both are the same after `_drawFretMarkers` as
before it. -/
theorem closed_entries_change_nothing (fb : Fretboard) :
    _getFirstFret (fb.config.fingering ++ (_getUnplayedStrings fb.config).map
        (fun s => ({ string := .single s, fret := -1, finger := .num 0 } : Entry))) =
      _getFirstFret fb.config.fingering ∧
    _getFretStructure { fb.config with
        fingering := fb.config.fingering ++ (_getUnplayedStrings fb.config).map
          (fun s => ({ string := .single s, fret := -1, finger := .num 0 } : Entry)) } =
      _getFretStructure fb.config ∧
    _getFirstFret (_drawFretMarkers fb).config.fingering = _getFirstFret fb.config.fingering ∧
    _getFretStructure (_drawFretMarkers fb).config = _getFretStructure fb.config := by
  have hclosed : ∀ e ∈ (_getUnplayedStrings fb.config).map
      (fun s => ({ string := .single s, fret := -1, finger := .num 0 } : Entry)),
      e.fret = -1 := by
    intro e he
    obtain ⟨s, _, rfl⟩ := List.mem_map.1 he
    rfl
  have hcfg : (_drawFretMarkers fb).config = { fb.config with
      fingering := fb.config.fingering ++ (_getUnplayedStrings fb.config).map
        (fun s => ({ string := .single s, fret := -1, finger := .num 0 } : Entry)) } := by
    rw [← drawFretMarkers_fingering]
    unfold _drawFretMarkers
    simp only [foldl_addFretMarker_config]
  refine ⟨getFirstFret_append_closed _ _ hclosed, getFretStructure_append_closed _ _ hclosed,
    ?_, ?_⟩
  · rw [drawFretMarkers_fingering]
    exact getFirstFret_append_closed _ _ hclosed
  · rw [hcfg]
    exact getFretStructure_append_closed _ _ hclosed

theorem closed_entries_change_nothing_witness :
    _getFirstFret (_drawFretMarkers (Fretboard.mk { strings := 6, fingering :=
      [Entry.mk (.single 1) 8 (.num 1), Entry.mk (.single 2) 10 (.num 2)] } [])).config.fingering =
      Num.fin 8 :=
  ((closed_entries_change_nothing (Fretboard.mk { strings := 6, fingering :=
      [Entry.mk (.single 1) 8 (.num 1), Entry.mk (.single 2) 10 (.num 2)] } [])).2.2.1).trans
    (by decide)

/-! ## Theorems on the markers, the fret labels and the configuration -/

/-- C11: a barre call `addFretMarker([a, b], fret, label)` emits a bar with left edge
`_getStringPos(max(a,b))`, width `25 * (max(a,b) - min(a,b))`, which is not negative and ends
at `_getStringPos(min(a,b))`, and `y = _getRelativeFretPos(fret) - 4`, followed by exactly
the markers of `addFretMarker(min(a,b), fret, label)` and `addFretMarker(max(a,b), fret,
label)`, `label` being there the label converted to a string; with 6 strings, first fret 1
and a barre `[3,5]` at fret 2 the bar spans `x = 25..75` at `y = 41`. -/
theorem addFretMarker_barre (fb : Fretboard) (a b fret : Int) (label : Label) :
    (addFretMarker fb (.range a b) fret label).svg =
      fb.svg ++
        [Cmd.marker label (.bar (25 * (max a b - min a b)) 10
          (_getStringPos fb.config (max a b))
          ((_getRelativeFretPos fb.config fret).add (-4)))] ++
        (addFretMarker (Fretboard.mk fb.config []) (.single (min a b)) fret
          (.str label.toString)).svg ++
        (addFretMarker (Fretboard.mk fb.config []) (.single (max a b)) fret
          (.str label.toString)).svg ∧
    0 ≤ 25 * (max a b - min a b) ∧
    _getStringPos fb.config (max a b) + 25 * (max a b - min a b) =
      _getStringPos fb.config (min a b) ∧
    Label.toString (.str label.toString) = label.toString ∧
    (∀ t : String, label = .str t → Label.str label.toString = label) ∧
    _getFirstFret [Entry.mk (.single 1) 0 (.num 0), Entry.mk (.single 2) 1 (.num 1),
      Entry.mk (.range 3 5) 2 (.num 2), Entry.mk (.single 6) (-1) (.num 0)] = Num.fin 1 ∧
    (addFretMarker (Fretboard.mk { strings := 6, fingering :=
      [Entry.mk (.single 1) 0 (.num 0), Entry.mk (.single 2) 1 (.num 1),
       Entry.mk (.range 3 5) 2 (.num 2), Entry.mk (.single 6) (-1) (.num 0)] } [])
      (.range 3 5) 2 (.num 2)).svg.head? =
      some (Cmd.marker (.num 2) (.bar 50 10 25 (Num.fin 41))) ∧
    (25 : Int) + 50 = 75 := by
  have hle : min a b ≤ max a b := le_trans (min_le_left a b) (le_max_left a b)
  refine ⟨?_, by omega, ?_, rfl, ?_, by decide, by decide, by decide⟩
  · have hw : _getStringPos fb.config (min a b) - _getStringPos fb.config (max a b) =
        25 * (max a b - min a b) := by
      unfold _getStringPos
      ring
    simp only [addFretMarker]
    rw [addSingleFretMarker_svg, addSingleFretMarker_svg, hw]
    simp only [List.append_assoc, addSingleFretMarker_config]
  · unfold _getStringPos
    ring
  · intro t ht
    subst ht
    rfl

theorem addFretMarker_barre_witness :
    _getStringPos { strings := 6 } (max 5 3) + 25 * (max 5 3 - min 5 3) =
      _getStringPos { strings := 6 } (min 5 3) :=
  (addFretMarker_barre (Fretboard.mk { strings := 6 } []) 5 3 2 (.num 2)).2.2.1

/-- C12, as stated, fails: in the default configuration with one entry at fret 8,
`showFretLabels` is not set, the first fret is 8 and no `startingFret` is configured;
`_drawFretLabels` then does not complete: after creating its group,
`config.get("startingFret")` throws `KeyNotExist`. -/
theorem drawFretLabels_throws :
    ({ fingering := [Entry.mk (.single 1) 8 (.num 1)] } : Config).showFretLabels = false ∧
    ({ fingering := [Entry.mk (.single 1) 8 (.num 1)] } : Config).startingFret = none ∧
    _getFirstFret [Entry.mk (.single 1) 8 (.num 1)] = Num.fin 8 ∧
    (_drawFretLabels (Fretboard.mk
      { fingering := [Entry.mk (.single 1) 8 (.num 1)] } [])).thrown =
      some (ConfigError.keyNotExist "startingFret") ∧
    (_drawFretLabels (Fretboard.mk
      { fingering := [Entry.mk (.single 1) 8 (.num 1)] } [])).state.svg =
      [Cmd.group "fret_labels" 0 20] := by
  decide

/-- C12, amended: `_drawFretLabels` completes and emits, after its group: when
`showFretLabels` is set, `frets` labels, the `i`-th showing the number `firstFret + i` at
`y = i * 30 + 8`; when it is not set and the first fret is 1, nothing; when it is not set,
the first fret is not 1 and a `startingFret` is configured, the single label "1" if
`startingFret` is 1, and nothing otherwise. In the remaining case, no `startingFret`
configured, the call throws `KeyNotExist` with the group created and no label drawn, and
that is the only case in which it throws. -/
theorem drawFretLabels_cases (fb : Fretboard) :
    ∃ firstFret : Int, _getFirstFret fb.config.fingering = Num.fin firstFret ∧
      (fb.config.showFretLabels = true →
        (_drawFretLabels fb).thrown = none ∧
        (_drawFretLabels fb).state.svg = fb.svg ++ [Cmd.group "fret_labels" 0 20] ++
          (List.range fb.config.frets).map (fun (i : Nat) =>
            Cmd.fretLabel (toString (firstFret + (i : Int))) ((i : Int) * 30 + 8)) ∧
        ((List.range fb.config.frets).map (fun (i : Nat) =>
            Cmd.fretLabel (toString (firstFret + (i : Int))) ((i : Int) * 30 + 8))).length =
          fb.config.frets) ∧
      (fb.config.showFretLabels = false → firstFret = 1 →
        (_drawFretLabels fb).thrown = none ∧
        (_drawFretLabels fb).state.svg = fb.svg ++ [Cmd.group "fret_labels" 0 20]) ∧
      (fb.config.showFretLabels = false → firstFret ≠ 1 →
        fb.config.startingFret = some 1 →
        (_drawFretLabels fb).thrown = none ∧
        (_drawFretLabels fb).state.svg =
          fb.svg ++ [Cmd.group "fret_labels" 0 20] ++ [Cmd.fretLabel "1" 8]) ∧
      (fb.config.showFretLabels = false → firstFret ≠ 1 →
        ∀ v : Int, fb.config.startingFret = some v → v ≠ 1 →
        (_drawFretLabels fb).thrown = none ∧
        (_drawFretLabels fb).state.svg = fb.svg ++ [Cmd.group "fret_labels" 0 20]) ∧
      (fb.config.showFretLabels = false → firstFret ≠ 1 →
        fb.config.startingFret = none →
        (_drawFretLabels fb).thrown = some (ConfigError.keyNotExist "startingFret") ∧
        (_drawFretLabels fb).state.svg = fb.svg ++ [Cmd.group "fret_labels" 0 20]) ∧
      (_drawFretLabels fb).state.config = fb.config ∧
      ((_drawFretLabels fb).thrown ≠ none ↔
        fb.config.showFretLabels = false ∧ firstFret ≠ 1 ∧
          fb.config.startingFret = none) := by
  have hfin : ∃ k : Int, _getFirstFret fb.config.fingering = Num.fin k := by
    rcases getFirstFret_cases fb.config.fingering with ⟨h, _⟩ | ⟨m, h, _⟩
    · exact ⟨1, h⟩
    · exact ⟨m, h⟩
  obtain ⟨k, hk⟩ := hfin
  have hk1 : k ≠ 1 → Num.fin k ≠ Num.fin 1 := fun h1 h => h1 (Num.fin.inj h)
  refine ⟨k, hk, ?_, ?_, ?_, ?_, ?_, drawFretLabels_config fb, ?_⟩
  · intro hshow
    refine ⟨by simp [drawFretLabels_thrown, hshow], ?_, by simp⟩
    rw [drawFretLabels_svg, if_pos hshow, hk]
    rfl
  · intro hshow h1
    have hne : ¬ (fb.config.showFretLabels = true) := by simp [hshow]
    subst h1
    refine ⟨by simp [drawFretLabels_thrown, hk], ?_⟩
    rw [drawFretLabels_svg, if_neg hne, hk]
    simp
  · intro hshow h1 hstart
    have hne : ¬ (fb.config.showFretLabels = true) := by simp [hshow]
    refine ⟨by simp [drawFretLabels_thrown, hstart], ?_⟩
    rw [drawFretLabels_svg, if_neg hne, hk, if_pos (hk1 h1), if_pos hstart]
  · intro hshow h1 v hstart hv
    have hne : ¬ (fb.config.showFretLabels = true) := by simp [hshow]
    have hv1 : ¬ (fb.config.startingFret = some 1) := by
      rw [hstart]
      intro h
      exact hv (Option.some.inj h)
    refine ⟨by simp [drawFretLabels_thrown, hstart], ?_⟩
    rw [drawFretLabels_svg, if_neg hne, hk, if_pos (hk1 h1), if_neg hv1]
    simp
  · intro hshow h1 hstart
    have hne : ¬ (fb.config.showFretLabels = true) := by simp [hshow]
    have hv1 : ¬ (fb.config.startingFret = some 1) := by
      rw [hstart]
      intro h
      cases h
    refine ⟨?_, ?_⟩
    · rw [drawFretLabels_thrown, hk, if_pos ⟨hshow, hk1 h1, hstart⟩]
    · rw [drawFretLabels_svg, if_neg hne, hk, if_pos (hk1 h1), if_neg hv1]
      simp
  · rw [drawFretLabels_thrown, hk]
    by_cases hc : fb.config.showFretLabels = false ∧ Num.fin k ≠ Num.fin 1 ∧
        fb.config.startingFret = none
    · rw [if_pos hc]
      refine ⟨fun _ => ⟨hc.1, fun h => hc.2.1 (by rw [h]), hc.2.2⟩, fun _ => by simp⟩
    · rw [if_neg hc]
      refine ⟨fun h => absurd rfl h, fun h => absurd ⟨h.1, hk1 h.2.1, h.2.2⟩ hc⟩

theorem drawFretLabels_cases_witness :
    (_drawFretLabels (Fretboard.mk { frets := 3, showFretLabels := true, fingering :=
      [Entry.mk (.single 1) 8 (.num 1)] } [])).state.svg =
    [Cmd.group "fret_labels" 0 20, Cmd.fretLabel "8" 8, Cmd.fretLabel "9" 38,
     Cmd.fretLabel "10" 68] := by
  obtain ⟨k, hk, hshow, _⟩ := drawFretLabels_cases (Fretboard.mk
    { frets := 3, showFretLabels := true, fingering := [Entry.mk (.single 1) 8 (.num 1)] } [])
  have h8 : k = 8 := Num.fin.inj (hk.symm.trans (by decide))
  subst h8
  rw [(hshow rfl).2.1]
  decide

/-- C15: for a single string `s`, `addFretMarker` emits for fret `-1` one X polygon at
`(_getStringPos(s) - 6, _getAbsoluteFretPos(0) + 1)`, for fret `0` one ring of diameter 13 at
`(_getStringPos(s) - 6, _getAbsoluteFretPos(0) + 2)`, and for any other fret one disc of
diameter 22 and the label text in a group placed at
`(_getStringPos(s) - 10, _getRelativeFretPos(fret) - 10)`; the open and the closed marker do
not depend on the fingering, hence not on the first fret. -/
theorem addFretMarker_single (fb : Fretboard) (s fret : Int) (label : Label) :
    (fret = -1 → (addFretMarker fb (.single s) fret label).svg =
      fb.svg ++ [Cmd.marker label
        (.cross (_getStringPos fb.config s - 6) (_getAbsoluteFretPos 0 + 1))]) ∧
    (fret = 0 → (addFretMarker fb (.single s) fret label).svg =
      fb.svg ++ [Cmd.marker label
        (.ring 13 (_getStringPos fb.config s - 6) (_getAbsoluteFretPos 0 + 2))]) ∧
    (fret ≠ -1 → fret ≠ 0 → (addFretMarker fb (.single s) fret label).svg =
      fb.svg ++
        [Cmd.marker label (.place (_getStringPos fb.config s - 10)
          ((_getRelativeFretPos fb.config fret).add (-10))),
         Cmd.marker label (.dot 22),
         Cmd.marker label (.caption label.toString 11 (-3))]) ∧
    (fret = -1 ∨ fret = 0 → ∀ fingering : List Entry,
      (addFretMarker (Fretboard.mk { fb.config with fingering := fingering } [])
        (.single s) fret label).svg =
      (addFretMarker (Fretboard.mk fb.config []) (.single s) fret label).svg) := by
  refine ⟨?_, ?_, ?_, ?_⟩
  · intro h
    simp [addFretMarker, addSingleFretMarker, h, CLOSED_STRING]
  · intro h
    simp [addFretMarker, addSingleFretMarker, h, CLOSED_STRING, OPEN_STRING]
  · intro h1 h0
    simp [addFretMarker, addSingleFretMarker, h1, h0, CLOSED_STRING, OPEN_STRING]
  · intro h fingering
    rcases h with h | h
    · simp [addFretMarker, addSingleFretMarker, h, CLOSED_STRING, _getStringPos]
    · simp [addFretMarker, addSingleFretMarker, h, CLOSED_STRING, OPEN_STRING, _getStringPos]

theorem addFretMarker_single_witness :
    (addFretMarker (Fretboard.mk { strings := 6 } []) (.single 6) (-1) (.num 0)).svg =
      [Cmd.marker (.num 0) (.cross (-6) (-14))] :=
  ((addFretMarker_single (Fretboard.mk { strings := 6 } []) 6 (-1) (.num 0)).1 rfl).trans
    (by decide)

/-- C16, as stated, fails: on one string at position 0, the 2-character name `C#` is drawn at
`x = -7` and the 1-character name `C` at `x = -4`, so the shift subtracted for the
2-character name, 7, is not smaller than the one for the 1-character name, 4. -/
theorem drawNotes_two_chars_shift_more :
    (_drawNotes (fun _ _ => "C#") (Fretboard.mk
      { strings := 1, fingering := [Entry.mk (.single 1) 0 (.num 0)], tuning := ["C"] }
      [])).svg = [Cmd.group "notes" 35 165, Cmd.note "C#" (-7)] ∧
    (_drawNotes (fun _ _ => "C") (Fretboard.mk
      { strings := 1, fingering := [Entry.mk (.single 1) 0 (.num 0)], tuning := ["C"] }
      [])).svg = [Cmd.group "notes" 35 165, Cmd.note "C" (-4)] ∧
    ¬ (_getStringPos
        { strings := 1, fingering := [Entry.mk (.single 1) 0 (.num 0)], tuning := ["C"] } 1
          - (-7) <
       _getStringPos
        { strings := 1, fingering := [Entry.mk (.single 1) 0 (.num 0)], tuning := ["C"] } 1
          - (-4)) := by
  decide

/-- C16, amended: for a string `s` of `1..strings` whose fret structure value is not `-1`,
`_drawNotes` places a 2-character pitch name at `_getStringPos(s) - 7` and a 1-character
pitch name at `_getStringPos(s) - 4`: the shift of the 2-character name is the larger. -/
theorem drawNotes_shift (note : Option String → Int → String) (fb : Fretboard) (s f : Int)
    (h1 : 1 ≤ s) (h2 : s ≤ fb.config.strings)
    (hf : elemAt (_getFretStructure fb.config) (s - 1) = some f) (hplayed : f ≠ -1) :
    ((note (elemAt fb.config.tuning ((fb.config.strings : Int) - s)) f).length = 2 →
      Cmd.note (note (elemAt fb.config.tuning ((fb.config.strings : Int) - s)) f)
        (_getStringPos fb.config s - 7) ∈ (_drawNotes note fb).svg) ∧
    ((note (elemAt fb.config.tuning ((fb.config.strings : Int) - s)) f).length = 1 →
      Cmd.note (note (elemAt fb.config.tuning ((fb.config.strings : Int) - s)) f)
        (_getStringPos fb.config s - 4) ∈ (_drawNotes note fb).svg) ∧
    (4 : Int) < 7 := by
  have hmem : Cmd.note (note (elemAt fb.config.tuning ((fb.config.strings : Int) - s)) f)
      (_getStringPos fb.config s -
        (if (note (elemAt fb.config.tuning ((fb.config.strings : Int) - s)) f).length = 2
          then 7 else 4)) ∈ (_drawNotes note fb).svg := by
    rw [drawNotes_svg]
    apply List.mem_append_right
    rw [List.mem_flatMap]
    refine ⟨s, ?_, ?_⟩
    · rw [List.mem_map]
      exact ⟨(s - 1).toNat, List.mem_range.2 (by omega), by omega⟩
    · simp only [hf, hplayed, if_false, List.mem_singleton]
  refine ⟨?_, ?_, by decide⟩
  · intro hlen
    rw [if_pos hlen] at hmem
    exact hmem
  · intro hlen
    have hne : ¬ ((note (elemAt fb.config.tuning ((fb.config.strings : Int) - s)) f).length
        = 2) := by omega
    rw [if_neg hne] at hmem
    exact hmem

theorem drawNotes_shift_witness :
    Cmd.note "C#" (_getStringPos
      { strings := 1, fingering := [Entry.mk (.single 1) 0 (.num 0)], tuning := ["C"] } 1 - 7) ∈
    (_drawNotes (fun _ _ => "C#") (Fretboard.mk
      { strings := 1, fingering := [Entry.mk (.single 1) 0 (.num 0)], tuning := ["C"] }
      [])).svg :=
  (drawNotes_shift (fun _ _ => "C#") (Fretboard.mk
      { strings := 1, fingering := [Entry.mk (.single 1) 0 (.num 0)], tuning := ["C"] } [])
    1 0 (by decide) (by decide) (by decide) (by decide)).1 (by decide)

/-- C17, on the code: with `showFretLabels` off and the single entry at fret 8 the first fret
is 8, and `_drawFretLabels` draws no label at all: it throws `KeyNotExist` with only its
group created; with `startingFret` set to 1 as well it completes and draws the label "1",
not the starting fret 8. -/
theorem drawFretLabels_no_starting_fret :
    _getFirstFret [Entry.mk (.single 1) 8 (.num 1)] = Num.fin 8 ∧
    (_drawFretLabels (Fretboard.mk
      { showFretLabels := false, fingering := [Entry.mk (.single 1) 8 (.num 1)] } [])).state.svg =
      [Cmd.group "fret_labels" 0 20] ∧
    (_drawFretLabels (Fretboard.mk
      { showFretLabels := false, fingering := [Entry.mk (.single 1) 8 (.num 1)] } [])).thrown =
      some (ConfigError.keyNotExist "startingFret") ∧
    (_drawFretLabels (Fretboard.mk
      { showFretLabels := false, fingering := [Entry.mk (.single 1) 8 (.num 1)],
        startingFret := some 1 } [])).state.svg =
      [Cmd.group "fret_labels" 0 20, Cmd.fretLabel "1" 8] ∧
    (_drawFretLabels (Fretboard.mk
      { showFretLabels := false, fingering := [Entry.mk (.single 1) 8 (.num 1)],
        startingFret := some 1 } [])).thrown = none := by
  decide

/-- C18, as stated, fails: after the draw of the configuration with 2 strings and an empty
fingering, which completes, the fingering of the configuration holds the two closed entries
that `_drawFretMarkers` pushed. -/
theorem draw_changes_fingering :
    ({ strings := 2 } : Config).fingering = [] ∧
    (create (fun _ _ => "E") { strings := 2 }).thrown = none ∧
    (create (fun _ _ => "E") { strings := 2 }).state.config.fingering =
      [Entry.mk (.single 1) (-1) (.num 0), Entry.mk (.single 2) (-1) (.num 0)] ∧
    (create (fun _ _ => "E") { strings := 2 }).state.config.fingering ≠
      ({ strings := 2 } : Config).fingering := by
  decide

/-- C18, amended: after `_draw`, whether it completes or throws, the configuration is the one
before with its fingering followed by `{string: s, fret: -1, finger: 0}` for each `s` of
`_getUnplayedStrings`; the fingering is the same as before exactly when there is no unplayed
string. -/
theorem draw_config_fingering (note : Option String → Int → String) (fb : Fretboard) :
    (_draw note fb).state.config = { fb.config with
      fingering := fb.config.fingering ++ (_getUnplayedStrings fb.config).map
        (fun s => ({ string := .single s, fret := -1, finger := .num 0 } : Entry)) } ∧
    ((_draw note fb).state.config.fingering = fb.config.fingering ↔
      _getUnplayedStrings fb.config = []) := by
  have hcfg : (_draw note fb).state.config = { fb.config with
      fingering := fb.config.fingering ++ (_getUnplayedStrings fb.config).map
        (fun s => ({ string := .single s, fret := -1, finger := .num 0 } : Entry)) } := by
    rw [draw_config]
    exact drawFretMarkers_config fb
  refine ⟨hcfg, ?_⟩
  rw [hcfg]
  simp

theorem draw_config_fingering_witness :
    (_draw (fun _ _ => "E") (Fretboard.mk { strings := 2, fingering :=
      [Entry.mk (.single 2) 3 (.num 1)] } [])).state.config.fingering =
    [Entry.mk (.single 2) 3 (.num 1), Entry.mk (.single 1) (-1) (.num 0)] :=
  (congrArg Config.fingering (draw_config_fingering (fun _ _ => "E")
    (Fretboard.mk { strings := 2, fingering := [Entry.mk (.single 2) 3 (.num 1)] } [])).1).trans
    (by decide)

end Fretboard
